import Mathlib

/-!
Verification development for the moosestats server and scraper.

The JavaScript source is shallowly embedded as follows:

* A JS string-valued field that may be `null`/`undefined` is an `Option String`;
  `none` models the nullish values and JS truthiness additionally treats the
  empty string as falsy (`truthy`).
* JS objects used as string-keyed maps (per-tab `stats`, the `tabs` record,
  the per-server store) are association lists in insertion order; object
  assignment `o[k] = v` is `upsert` (updates the first occurrence in place,
  otherwise appends), matching JS property insertion-order semantics.
* `Date.now()` is passed in explicitly as a `now : Nat` parameter.
* Scrape profile records produced by the scraper always carry the eight core
  keys (`steamUrl steamId displayName avatarUrl color fallbackName searchKey
  missing`) and never the response-side annotations (`playerId storedSteamId
  storedSteamUrl needsSteam64`), so the object spread
  `{ ...cachedProfile, ...incomingProfile }` in `mergePlayerStats` is embedded
  as `overwriteProfile`: core fields are taken from the incoming record and the
  annotation fields are kept from the cached one.
-/

namespace MooseStats

/-- JS truthiness for a nullable string value: nullish and `""` are falsy. -/
def truthy : Option String → Bool
  | none => false
  | some s => !s.isEmpty

/-- JS `a || b` on nullable string values. -/
def jsOr (a b : Option String) : Option String :=
  if truthy a then a else b

/-- JS `a ? a : null` on a nullable string value. -/
def truthyOrNone (a : Option String) : Option String :=
  if truthy a then a else none

/-- server.js line 13: default server name. -/
def SERVER_NAME : String := "US Monthly (Premium)"

/-- server.js line 14: allow-listed server names. -/
def ALLOWED_SERVERS : List String := ["US Monthly (Premium)", "US Biweekly (Premium)"]

/-- moose_scraper.js lines 59-60: fallback avatar URL. -/
def FALLBACK_AVATAR : String :=
  "https://steamcommunity-a.akamaihd.net/public/shared/images/responsive/share_steam_logo.png"

/-- A player/profile record.  All string fields are nullable.  The first eight
fields are the core keys every scraped profile carries; the last four are
annotations added by `attachPlayerIds` / `buildResponseFromCache` on the
server side. -/
structure Profile where
  steamId : Option String := none
  steamUrl : Option String := none
  displayName : Option String := none
  avatarUrl : Option String := none
  color : Option String := none
  fallbackName : Option String := none
  searchKey : Option String := none
  missing : Option Bool := none
  playerId : Option Nat := none
  storedSteamId : Option String := none
  storedSteamUrl : Option String := none
  needsSteam64 : Option Bool := none
deriving DecidableEq, Repr

/-- A JS number; `none` models `NaN` (producible from malformed cell text). -/
def JsNum := Option ℚ
deriving DecidableEq, Repr

/-- One player's extracted metric values, keyed by metric label. -/
def StatLine := List (String × JsNum)
deriving DecidableEq, Repr

/-- One tab's cached data (server.js cache shape and scrape-result shape). -/
structure Tab where
  metrics : List String := []
  stats : List (String × StatLine) := []
  columnMap : List (String × Nat) := []
deriving DecidableEq, Repr

/-- An entry of the `missing` list (moose_scraper.js lines 795-800). -/
structure MissingEntry where
  label : Option String := none
  steamId : Option String := none
  steamUrl : Option String := none
  reason : String := ""
deriving DecidableEq, Repr

/-- A per-server cache document (server.js / data.json shape). -/
structure Cache where
  serverName : Option String := none
  profiles : List Profile := []
  tabs : List (String × Tab) := []
  missing : List MissingEntry := []
  serverInfo : Option String := none
  updatedAt : Option Nat := none
deriving DecidableEq, Repr

/-- The result shape returned by `scrapePlayers` and passed to
`mergePlayerStats` as `playerResult`. -/
structure ScrapeResult where
  serverName : Option String := none
  profiles : List Profile := []
  tabs : List (String × Tab) := []
  missing : List MissingEntry := []
  serverInfo : Option String := none
deriving DecidableEq, Repr

section AssocList

variable {K V : Type} [DecidableEq K]

/-- First-occurrence lookup in an association list (JS property read). -/
def getFirst : List (K × V) → K → Option V
  | [], _ => none
  | (k', v) :: rest, k => if k' = k then some v else getFirst rest k

/-- JS object assignment `o[k] = v`: update the first occurrence of `k` in
place, otherwise append at the end (property insertion order). -/
def upsert : List (K × V) → K → V → List (K × V)
  | [], k, v => [(k, v)]
  | (k', v') :: rest, k, v =>
    if k' = k then (k', v) :: rest else (k', v') :: upsert rest k v

/-- Assign every binding of `l` into `m`, left to right. -/
def upsertAll (m l : List (K × V)) : List (K × V) :=
  l.foldl (fun acc e => upsert acc e.1 e.2) m

/-- JS `delete o[k]` guarded by presence: drop every binding of `k`. -/
def removeKey (m : List (K × V)) (k : K) : List (K × V) :=
  m.filter (fun e => decide (e.1 ≠ k))

/-- Last value bound to `k` in `l`, defaulting to `d` (last write wins). -/
def lastD (l : List (K × V)) (k : K) (d : V) : V :=
  l.foldl (fun acc e => if e.1 = k then e.2 else acc) d

end AssocList

/-- JS `Array.prototype.findIndex` on a list. -/
def findIndex {α : Type} (P : α → Bool) : List α → Option Nat
  | [] => none
  | a :: rest => if P a then some 0 else (findIndex P rest).map (· + 1)

/-- Equality "as a string" of two nullable string fields: both present and
equal (a nullish field is never string-equal to anything). -/
def sameStr (a b : Option String) : Bool :=
  match a, b with
  | some s, some t => s = t
  | _, _ => false

/-- server.js lines 547-551: the identity test used by `mergePlayerStats` to
locate an existing cache profile for an incoming one (truthiness-guarded
steamId equality or steamUrl equality). -/
def profileMatches (incoming existing : Profile) : Bool :=
  (truthy incoming.steamId && truthy existing.steamId
      && sameStr incoming.steamId existing.steamId)
  || (truthy incoming.steamUrl && truthy existing.steamUrl
      && sameStr incoming.steamUrl existing.steamUrl)

/-- The object spread `{ ...old, ...incoming }` of server.js line 553 for the
records `mergePlayerStats` actually receives: incoming scrape profiles own all
eight core keys (possibly null) and never the four annotation keys. -/
def overwriteProfile (old incoming : Profile) : Profile :=
  { steamId := incoming.steamId
    steamUrl := incoming.steamUrl
    displayName := incoming.displayName
    avatarUrl := incoming.avatarUrl
    color := incoming.color
    fallbackName := incoming.fallbackName
    searchKey := incoming.searchKey
    missing := incoming.missing
    playerId := old.playerId
    storedSteamId := old.storedSteamId
    storedSteamUrl := old.storedSteamUrl
    needsSteam64 := old.needsSteam64 }

/-- server.js lines 546-557: fold one incoming profile into the merged list. -/
def mergeProfilesStep (L : List Profile) (profile : Profile) : List Profile :=
  match findIndex (fun p => profileMatches profile p) L with
  | some j => L.set j (overwriteProfile (L.getD j profile) profile)
  | none => L ++ [profile]

/-- server.js lines 543-557: merge all incoming profiles into the cached ones. -/
def mergeProfiles (existing newProfiles : List Profile) : List Profile :=
  newProfiles.foldl mergeProfilesStep existing

/-- server.js lines 559-571: merge one incoming tab into the cache tabs. -/
def mergeTabStep (tabs : List (String × Tab)) (e : String × Tab) :
    List (String × Tab) :=
  let existingTab := (getFirst tabs e.1).getD {}
  upsert tabs e.1
    { metrics := if e.2.metrics.isEmpty then existingTab.metrics else e.2.metrics
      stats := upsertAll existingTab.stats e.2.stats
      columnMap := e.2.columnMap }

/-- server.js lines 537-573: `mergePlayerStats(cache, playerResult)`, with
`Date.now()` passed in as `now`.  Note line 542: the merged `missing` list is
a copy of the cache's list only; `playerResult.missing` is never read. -/
def mergePlayerStats (cache : Option Cache) (playerResult : ScrapeResult)
    (now : Nat) : Cache :=
  { serverName :=
      jsOr playerResult.serverName
        (jsOr (match cache with | some c => c.serverName | none => none)
          (some SERVER_NAME))
    serverInfo :=
      playerResult.serverInfo <|>
        (match cache with | some c => c.serverInfo | none => none)
    updatedAt := some now
    missing := match cache with | some c => c.missing | none => []
    profiles :=
      mergeProfiles (match cache with | some c => c.profiles | none => [])
        playerResult.profiles
    tabs :=
      playerResult.tabs.foldl mergeTabStep
        (match cache with | some c => c.tabs | none => []) }

section FindIndexLemmas

variable {α : Type} {P : α → Bool}

theorem findIndex_none {l : List α} (h : findIndex P l = none) :
    ∀ a ∈ l, P a = false := by
  induction l with
  | nil => intro a ha; cases ha
  | cons x xs ih =>
    intro a ha
    by_cases hx : P x
    · simp [findIndex, hx] at h
    · rcases List.mem_cons.mp ha with rfl | hmem
      · simpa using hx
      · refine ih ?_ a hmem
        simp [findIndex, hx] at h
        cases hfi : findIndex P xs with
        | none => rfl
        | some j => rw [hfi] at h; simp at h

theorem findIndex_lt_length {l : List α} {j : Nat}
    (h : findIndex P l = some j) : j < l.length := by
  induction l generalizing j with
  | nil => simp [findIndex] at h
  | cons x xs ih =>
    by_cases hx : P x
    · simp [findIndex, hx] at h
      subst h
      simp
    · simp only [findIndex, hx, if_neg, Bool.false_eq_true, not_false_iff,
        if_false] at h
      cases hfi : findIndex P xs with
      | none => rw [hfi] at h; simp at h
      | some j' =>
        rw [hfi] at h
        simp at h
        have := ih hfi
        simp [← h, List.length_cons]
        omega

theorem findIndex_getD {l : List α} {j : Nat} (d : α)
    (h : findIndex P l = some j) : P (l.getD j d) = true := by
  induction l generalizing j with
  | nil => simp [findIndex] at h
  | cons x xs ih =>
    by_cases hx : P x
    · simp [findIndex, hx] at h
      subst h
      simpa using hx
    · simp [findIndex, hx] at h
      cases hfi : findIndex P xs with
      | none => rw [hfi] at h; simp at h
      | some j' =>
        rw [hfi] at h
        simp at h
        subst h
        simpa using ih hfi

theorem findIndex_min {l : List α} {j : Nat} (d : α)
    (h : findIndex P l = some j) :
    ∀ k, k < j → P (l.getD k d) = false := by
  induction l generalizing j with
  | nil => simp [findIndex] at h
  | cons x xs ih =>
    by_cases hx : P x
    · simp [findIndex, hx] at h
      subst h
      intro k hk
      omega
    · simp [findIndex, hx] at h
      cases hfi : findIndex P xs with
      | none => rw [hfi] at h; simp at h
      | some j' =>
        rw [hfi] at h
        simp at h
        subst h
        intro k hk
        cases k with
        | zero => simpa using hx
        | succ k' => exact ih hfi k' (by omega)

end FindIndexLemmas

theorem mem_set_of_getD_ne {α : Type} {l : List α} {e : α} {j : Nat} (x : α)
    (he : e ∈ l) (hne : l.getD j e ≠ e) : e ∈ l.set j x := by
  induction l generalizing j with
  | nil => cases he
  | cons a rest ih =>
    cases j with
    | zero =>
      rcases List.mem_cons.mp he with rfl | hmem
      · simp [List.getD] at hne
      · exact List.mem_cons.mpr (Or.inr hmem)
    | succ j' =>
      rcases List.mem_cons.mp he with rfl | hmem
      · exact List.mem_cons.mpr (Or.inl rfl)
      · exact List.mem_cons.mpr (Or.inr (ih hmem (by simpa [List.getD] using hne)))

theorem mergeProfilesStep_mem {L : List Profile} {e : Profile}
    (he : e ∈ L) (p : Profile) (hp : profileMatches p e = false) :
    e ∈ mergeProfilesStep L p := by
  unfold mergeProfilesStep
  cases hfi : findIndex (fun q => profileMatches p q) L with
  | none => exact List.mem_append_left _ he
  | some j =>
    refine mem_set_of_getD_ne _ he ?_
    intro hEq
    have h' := findIndex_getD (P := fun q => profileMatches p q) e hfi
    rw [hEq] at h'
    have : profileMatches p e = true := by simpa using h'
    rw [hp] at this
    exact Bool.false_ne_true this

theorem sameStr_symm (a b : Option String) : sameStr a b = sameStr b a := by
  cases a <;> cases b <;> simp [sameStr, eq_comm]

theorem profileMatches_eq_false_of {p e : Profile}
    (h1 : sameStr e.steamId p.steamId = false)
    (h2 : sameStr e.steamUrl p.steamUrl = false) :
    profileMatches p e = false := by
  have hs : sameStr p.steamId e.steamId = false := by rw [sameStr_symm]; exact h1
  have hu : sameStr p.steamUrl e.steamUrl = false := by rw [sameStr_symm]; exact h2
  simp [profileMatches, hs, hu]

theorem mergeProfiles_mem {L : List Profile} {e : Profile} (he : e ∈ L)
    {ps : List Profile} (h : ∀ p ∈ ps, profileMatches p e = false) :
    e ∈ mergeProfiles L ps := by
  induction ps generalizing L with
  | nil => simpa [mergeProfiles] using he
  | cons p rest ih =>
    have hstep : e ∈ mergeProfilesStep L p :=
      mergeProfilesStep_mem he p (h p (List.mem_cons_self _ _))
    have := ih hstep (fun q hq => h q (List.mem_cons_of_mem _ hq))
    simpa [mergeProfiles] using this

/-- C1.  For every cache `C` and scrape result `R`, every profile entry of `C`
whose steamId does not equal (as a string) the steamId of any profile in `R`
and whose steamUrl does not equal the steamUrl of any profile in `R` appears
in `merge(C, R)` unchanged: the very record remains an element of the merged
profiles array, so no such entry is removed or altered. -/
theorem merge_retains_unrelated_profiles (cache : Cache) (r : ScrapeResult)
    (now : Nat) (e : Profile) (he : e ∈ cache.profiles)
    (hid : ∀ p ∈ r.profiles, sameStr e.steamId p.steamId = false)
    (hurl : ∀ p ∈ r.profiles, sameStr e.steamUrl p.steamUrl = false) :
    e ∈ (mergePlayerStats (some cache) r now).profiles := by
  have h : ∀ p ∈ r.profiles, profileMatches p e = false := fun p hp =>
    profileMatches_eq_false_of (hid p hp) (hurl p hp)
  simpa [mergePlayerStats] using mergeProfiles_mem he h

/-- Witness for C1 at a concrete cache and scrape result. -/
theorem merge_retains_unrelated_profiles_witness :
    let e : Profile := { steamId := some "11111111111111111", displayName := some "Keep" }
    let c : Cache := { profiles := [e] }
    let r : ScrapeResult :=
      { profiles := [{ steamId := some "22222222222222222", steamUrl := some "https://steamcommunity.com/profiles/22222222222222222" }] }
    e ∈ (mergePlayerStats (some c) r 5).profiles := by
  intro e c r
  exact merge_retains_unrelated_profiles c r 5 e (by decide)
    (by intro p hp; fin_cases hp; decide) (by intro p hp; fin_cases hp; decide)

section AssocLemmas

variable {K V : Type} [DecidableEq K]

/-- Last value bound to `k` in `l`, with an optional default (used to state
last-write-wins characterizations). -/
def lastO (l : List (K × V)) (k : K) (d : Option V) : Option V :=
  l.foldl (fun acc e => if e.1 = k then some e.2 else acc) d

theorem getFirst_upsert (m : List (K × V)) (k' k : K) (v : V) :
    getFirst (upsert m k' v) k = if k' = k then some v else getFirst m k := by
  induction m with
  | nil => simp [upsert, getFirst]
  | cons e rest ih =>
    obtain ⟨a, b⟩ := e
    by_cases h1 : a = k'
    · subst h1
      by_cases h2 : a = k
      · subst h2
        simp [upsert, getFirst]
      · simp [upsert, getFirst, h2]
    · by_cases h2 : a = k
      · subst h2
        have h1' : ¬ k' = a := fun hc => h1 hc.symm
        simp [upsert, getFirst, h1, h1']
      · simp [upsert, getFirst, h1, h2, ih]

theorem getFirst_upsertAll (m l : List (K × V)) (k : K) :
    getFirst (upsertAll m l) k = lastO l k (getFirst m k) := by
  induction l generalizing m with
  | nil => simp [upsertAll, lastO]
  | cons e t ih =>
    show getFirst (upsertAll (upsert m e.1 e.2) t) k = _
    rw [ih]
    have : getFirst (upsert m e.1 e.2) k =
        if e.1 = k then some e.2 else getFirst m k := getFirst_upsert ..
    simp [lastO, this]

theorem upsert_same (m : List (K × V)) (k : K) (v : V)
    (h : getFirst m k = some v) : upsert m k v = m := by
  induction m with
  | nil => simp [getFirst] at h
  | cons e rest ih =>
    obtain ⟨a, b⟩ := e
    by_cases h1 : a = k
    · simp [getFirst, h1] at h
      simp [upsert, h1, h]
    · simp [getFirst, h1] at h
      simp [upsert, h1, ih h]

end AssocLemmas

theorem getFirst_mergeTabStep_ne (tabs : List (String × Tab)) (e : String × Tab)
    (k : String) (hne : e.1 ≠ k) :
    getFirst (mergeTabStep tabs e) k = getFirst tabs k := by
  unfold mergeTabStep
  rw [getFirst_upsert]
  simp [hne]

theorem getFirst_mergeTabs_frame (l : List (String × Tab))
    (tabs : List (String × Tab)) (k : String) (h : ∀ e ∈ l, e.1 ≠ k) :
    getFirst (l.foldl mergeTabStep tabs) k = getFirst tabs k := by
  induction l generalizing tabs with
  | nil => rfl
  | cons e t ih =>
    show getFirst (t.foldl mergeTabStep (mergeTabStep tabs e)) k = _
    rw [ih _ (fun x hx => h x (List.mem_cons_of_mem _ hx))]
    exact getFirst_mergeTabStep_ne tabs e k (h e (List.mem_cons_self _ _))

/-- The tab produced by server.js lines 559-571 for one incoming tab entry. -/
def mergedTabOf (ex td : Tab) : Tab :=
  { metrics := if td.metrics.isEmpty then ex.metrics else td.metrics
    stats := upsertAll ex.stats td.stats
    columnMap := td.columnMap }

theorem getFirst_mergeTabs (l : List (String × Tab)) :
    ∀ (tabs : List (String × Tab)), (l.map Prod.fst).Nodup →
    ∀ {k : String} {td : Tab}, (k, td) ∈ l →
    getFirst (l.foldl mergeTabStep tabs) k =
      some (mergedTabOf ((getFirst tabs k).getD {}) td) := by
  induction l with
  | nil => intro tabs _ k td hmem; cases hmem
  | cons e t ih =>
    intro tabs hnodup k td hmem
    have hnd : (t.map Prod.fst).Nodup := (List.nodup_cons.mp (by simpa using hnodup)).2
    have hhead : e.1 ∉ t.map Prod.fst := (List.nodup_cons.mp (by simpa using hnodup)).1
    rcases List.mem_cons.mp hmem with rfl | hmem'
    · show getFirst (t.foldl mergeTabStep (mergeTabStep tabs (k, td))) k = _
      have hframe : ∀ x ∈ t, x.1 ≠ k := by
        intro x hx hc
        exact hhead (List.mem_map.mpr ⟨x, hx, hc⟩)
      rw [getFirst_mergeTabs_frame t _ k hframe]
      unfold mergeTabStep
      rw [getFirst_upsert]
      simp [mergedTabOf]
    · have hne : e.1 ≠ k := by
        intro hc
        exact hhead (List.mem_map.mpr ⟨(k, td), hmem', hc.symm⟩)
      show getFirst (t.foldl mergeTabStep (mergeTabStep tabs e)) k = _
      rw [ih _ hnd hmem']
      rw [getFirst_mergeTabStep_ne tabs e k hne]

/-- C9 counterexample.  The claim says an already-populated cache metrics list
wins; on the code the incoming non-empty metrics list wins.  With cache
metrics `["A"]` and incoming metrics `["B"]` for tab `pvp`, the merged tab's
metrics are `["B"]`, not `["A"]`. -/
theorem merge_tab_metrics_counterexample :
    let c : Cache := { tabs := [("pvp", { metrics := ["A"] })] }
    let r : ScrapeResult := { tabs := [("pvp", { metrics := ["B"] })] }
    (getFirst (mergePlayerStats (some c) r 0).tabs "pvp").map Tab.metrics
        = some ["B"] ∧
      ¬ (getFirst (mergePlayerStats (some c) r 0).tabs "pvp").map Tab.metrics
        = some ["A"] := by
  constructor <;> decide

/-- C9 (amended).  For every cache `C` and scrape result `R` with distinct tab
keys, and every tab entry `(k, td)` of `R`: the merged cache maps `k` to a tab
whose stats are `C`'s stats for `k` overwritten pointwise (last write wins) by
`R`'s stat entries keyed by player label, whose columnMap is `R`'s, and whose
metrics are `R`'s metrics when `R`'s list is non-empty and `C`'s existing list
only when `R`'s list is empty (the code prefers the incoming metrics, not the
cached ones as the original claim stated). -/
theorem merge_tab_stats_and_metrics (cache : Option Cache) (r : ScrapeResult)
    (now : Nat) (hnodup : (r.tabs.map Prod.fst).Nodup) (k : String) (td : Tab)
    (hmem : (k, td) ∈ r.tabs) :
    ∃ mtab : Tab,
      getFirst (mergePlayerStats cache r now).tabs k = some mtab ∧
      mtab.stats =
        upsertAll ((getFirst (match cache with
          | some c => c.tabs | none => []) k).getD {}).stats td.stats ∧
      (∀ label, getFirst mtab.stats label =
        lastO td.stats label
          (getFirst ((getFirst (match cache with
            | some c => c.tabs | none => []) k).getD {}).stats label)) ∧
      mtab.metrics =
        (if td.metrics.isEmpty
          then ((getFirst (match cache with
            | some c => c.tabs | none => []) k).getD {}).metrics
          else td.metrics) ∧
      mtab.columnMap = td.columnMap := by
  refine ⟨mergedTabOf ((getFirst (match cache with
    | some c => c.tabs | none => []) k).getD {}) td, ?_, rfl, ?_, rfl, rfl⟩
  · show getFirst (r.tabs.foldl mergeTabStep _) k = _
    exact getFirst_mergeTabs r.tabs _ hnodup hmem
  · intro label
    exact getFirst_upsertAll ..

/-- Witness for the amended C9 at a concrete cache and scrape result. -/
theorem merge_tab_stats_and_metrics_witness :
    let c : Cache :=
      { tabs := [("pvp",
          { metrics := ["KDR"],
            stats := [("Alice", [("KDR", some 1)]), ("Bob", [("KDR", some 2)])] })] }
    let r : ScrapeResult :=
      { tabs := [("pvp",
          { metrics := [],
            stats := [("Alice", [("KDR", some 3)])] })] }
    ∃ mtab : Tab,
      getFirst (mergePlayerStats (some c) r 7).tabs "pvp" = some mtab ∧
      mtab.stats = upsertAll
        ((getFirst c.tabs "pvp").getD {}).stats
        [("Alice", [("KDR", some 3)])] ∧
      (∀ label, getFirst mtab.stats label =
        lastO [("Alice", [("KDR", (some 3 : JsNum))])] label
          (getFirst ((getFirst c.tabs "pvp").getD {}).stats label)) ∧
      mtab.metrics = (if ([] : List String).isEmpty
        then ((getFirst c.tabs "pvp").getD {}).metrics else []) ∧
      mtab.columnMap = [] := by
  intro c r
  exact merge_tab_stats_and_metrics (some c) r 7 (by decide) "pvp"
    { metrics := [], stats := [("Alice", [("KDR", some 3)])] }
    (by simp [r])

/-- C3 counterexample.  An entry of `R`'s non-empty missing list is absent
from the missing list of `merge(C, R)`: `mergePlayerStats` never reads
`playerResult.missing` (server.js line 542). -/
theorem merge_missing_counterexample :
    let m : MissingEntry :=
      { label := some "P", steamId := some "11111111111111111",
        reason := "Missing player stats" }
    let r : ScrapeResult := { missing := [m] }
    m ∉ (mergePlayerStats (some {}) r 0).missing := by
  intro m r
  simp [mergePlayerStats]

/-- C3 (amended).  The missing list of `merge(C, R)` equals `C`'s missing list
(empty when `C` is null); entries of `R`'s missing list are never appended by
the merge, even though the `/api/players` route passes `result.missing` in. -/
theorem merge_missing_is_cache_missing (cache : Option Cache)
    (r : ScrapeResult) (now : Nat) :
    (mergePlayerStats cache r now).missing
        = (match cache with | some c => c.missing | none => []) ∧
      ∀ m ∈ r.missing, m ∈ (mergePlayerStats cache r now).missing →
        m ∈ (match cache with | some c => c.missing | none => []) := by
  refine ⟨rfl, ?_⟩
  intro m _ hm
  simpa [mergePlayerStats] using hm

section GetDLemmas

variable {α : Type}

theorem getD_irrel (l : List α) (j : Nat) (d d' : α) (h : j < l.length) :
    l.getD j d = l.getD j d' := by
  induction l generalizing j with
  | nil => simp at h
  | cons a rest ih =>
    cases j with
    | zero => rfl
    | succ j' => exact ih j' (by simpa using h)

theorem getD_set_self (l : List α) (j : Nat) (x d : α) (h : j < l.length) :
    (l.set j x).getD j d = x := by
  induction l generalizing j with
  | nil => simp at h
  | cons a rest ih =>
    cases j with
    | zero => rfl
    | succ j' => exact ih j' (by simpa using h)

theorem getD_set_ne (l : List α) (j k : Nat) (x d : α) (hne : k ≠ j) :
    (l.set j x).getD k d = l.getD k d := by
  induction l generalizing j k with
  | nil => simp [List.set]
  | cons a rest ih =>
    cases j with
    | zero =>
      cases k with
      | zero => exact absurd rfl hne
      | succ k' => rfl
    | succ j' =>
      cases k with
      | zero => rfl
      | succ k' => exact ih j' k' (fun hc => hne (by rw [hc]))

theorem set_getD_self (l : List α) (j : Nat) (d : α) :
    l.set j (l.getD j d) = l := by
  induction l generalizing j with
  | nil => rfl
  | cons a rest ih =>
    cases j with
    | zero => rfl
    | succ j' => exact congrArg (List.cons a) (ih j')

theorem getD_append_lt (l l' : List α) (k : Nat) (d : α) (h : k < l.length) :
    (l ++ l').getD k d = l.getD k d := by
  induction l generalizing k with
  | nil => simp at h
  | cons a rest ih =>
    cases k with
    | zero => rfl
    | succ k' => exact ih k' (by simpa using h)

theorem getD_append_self (l : List α) (x d : α) :
    (l ++ [x]).getD l.length d = x := by
  induction l with
  | nil => rfl
  | cons a rest ih => simp only [List.append_eq, List.cons_append, List.length_cons]; exact ih

theorem getD_mem (l : List α) (j : Nat) (d : α) (h : j < l.length) :
    l.getD j d ∈ l := by
  induction l generalizing j with
  | nil => simp at h
  | cons a rest ih =>
    cases j with
    | zero => exact List.mem_cons_self _ _
    | succ j' => exact List.mem_cons_of_mem _ (ih j' (by simpa using h))

end GetDLemmas

theorem findIndex_eq_some_of {α : Type} {P : α → Bool} {l : List α} {j : Nat}
    (d : α) (hj : j < l.length) (hP : P (l.getD j d) = true)
    (hmin : ∀ k, k < j → P (l.getD k d) = false) :
    findIndex P l = some j := by
  induction l generalizing j with
  | nil => simp at hj
  | cons a rest ih =>
    cases j with
    | zero =>
      have : P a = true := hP
      simp [findIndex, this]
    | succ j' =>
      have ha : P a = false := hmin 0 (Nat.succ_pos _)
      have : findIndex P rest = some j' :=
        ih (by simpa using hj) hP (fun k hk => hmin (k + 1) (by omega))
      simp [findIndex, ha, this]

section UpsertIdem

variable {K V : Type} [DecidableEq K]

theorem upsertAll_cons_head (k₀ : K) (v₀ : V) (rest l : List (K × V)) :
    upsertAll ((k₀, v₀) :: rest) l =
      (k₀, lastD l k₀ v₀) ::
        upsertAll rest (l.filter (fun e => decide (e.1 ≠ k₀))) := by
  induction l generalizing v₀ rest with
  | nil => simp [upsertAll, lastD]
  | cons e t ih =>
    obtain ⟨k, v⟩ := e
    by_cases hk : k₀ = k
    · subst hk
      show upsertAll (upsert ((k₀, v₀) :: rest) k₀ v) t = _
      rw [show upsert ((k₀, v₀) :: rest) k₀ v = (k₀, v) :: rest from by
        simp [upsert]]
      rw [ih v rest]
      simp [lastD, List.filter]
    · show upsertAll (upsert ((k₀, v₀) :: rest) k v) t = _
      rw [show upsert ((k₀, v₀) :: rest) k v = (k₀, v₀) :: upsert rest k v from by
        simp [upsert, hk]]
      rw [ih v₀ (upsert rest k v)]
      have hkk : ¬ k = k₀ := fun hc => hk hc.symm
      simp only [lastD, List.foldl, List.filter, hkk, if_false, decide_not,
        ne_eq, decide_eq_true_eq, not_false_iff, decide_True]
      rfl

theorem lastD_of_no_key (l : List (K × V)) (k : K) (d : V)
    (h : ∀ e ∈ l, e.1 ≠ k) : lastD l k d = d := by
  induction l with
  | nil => rfl
  | cons e t ih =>
    have he : e.1 ≠ k := h e (List.mem_cons_self _ _)
    show lastD t k (if e.1 = k then e.2 else d) = d
    rw [if_neg he]
    exact ih (fun x hx => h x (List.mem_cons_of_mem _ hx))

theorem lastD_irrel (l : List (K × V)) (k : K) (d d' : V)
    (h : ∃ e ∈ l, e.1 = k) : lastD l k d = lastD l k d' := by
  induction l generalizing d d' with
  | nil => obtain ⟨e, he, _⟩ := h; cases he
  | cons e t ih =>
    by_cases hek : e.1 = k
    · show lastD t k (if e.1 = k then e.2 else d) = lastD t k (if e.1 = k then e.2 else d')
      rw [if_pos hek, if_pos hek]
    · show lastD t k (if e.1 = k then e.2 else d) = lastD t k (if e.1 = k then e.2 else d')
      rw [if_neg hek, if_neg hek]
      obtain ⟨x, hx, hxk⟩ := h
      rcases List.mem_cons.mp hx with rfl | hx'
      · exact absurd hxk hek
      · exact ih d d' ⟨x, hx', hxk⟩

theorem lastD_lastD (l : List (K × V)) (k : K) (d : V) :
    lastD l k (lastD l k d) = lastD l k d := by
  by_cases h : ∃ e ∈ l, e.1 = k
  · exact lastD_irrel l k _ d h
  · have h' : ∀ e ∈ l, e.1 ≠ k := by
      intro e he hc
      exact h ⟨e, he, hc⟩
    rw [lastD_of_no_key l k _ h', lastD_of_no_key l k d h']

theorem upsertAll_nil_aux (n : Nat) :
    ∀ l : List (K × V), l.length ≤ n →
      upsertAll (upsertAll [] l) l = upsertAll ([] : List (K × V)) l := by
  induction n with
  | zero =>
    intro l hl
    have : l = [] := List.eq_nil_of_length_eq_zero (Nat.le_zero.mp hl)
    subst this
    rfl
  | succ n ihn =>
    intro l hl
    match l with
    | [] => rfl
    | (k, v) :: t =>
      have h1 : upsertAll ([] : List (K × V)) ((k, v) :: t) =
          (k, lastD t k v) ::
            upsertAll [] (t.filter (fun e => decide (e.1 ≠ k))) := by
        show upsertAll [(k, v)] t = _
        exact upsertAll_cons_head k v [] t
      have hlen : (t.filter (fun e => decide (e.1 ≠ k))).length ≤ n := by
        have := List.length_filter_le (fun e => decide (e.1 ≠ k)) t
        have ht : t.length ≤ n := by simpa using Nat.le_of_succ_le_succ hl
        omega
      rw [h1]
      show upsertAll
          (upsert ((k, lastD t k v) ::
            upsertAll [] (t.filter (fun e => decide (e.1 ≠ k)))) k v) t = _
      rw [show upsert ((k, lastD t k v) ::
            upsertAll [] (t.filter (fun e => decide (e.1 ≠ k)))) k v =
          (k, v) :: upsertAll [] (t.filter (fun e => decide (e.1 ≠ k))) from by
        simp [upsert]]
      rw [upsertAll_cons_head k v _ t]
      rw [ihn _ hlen]

theorem upsertAll_idem (m l : List (K × V)) :
    upsertAll (upsertAll m l) l = upsertAll m l := by
  induction m generalizing l with
  | nil => exact upsertAll_nil_aux l.length l (Nat.le_refl _)
  | cons e rest ih =>
    obtain ⟨k₀, v₀⟩ := e
    rw [upsertAll_cons_head, upsertAll_cons_head, lastD_lastD,
      ih (l.filter (fun e => decide (e.1 ≠ k₀)))]

end UpsertIdem

/-- Equality of the eight core keys carried by every scraped profile. -/
def coreEq (x y : Profile) : Prop :=
  x.steamId = y.steamId ∧ x.steamUrl = y.steamUrl ∧
  x.displayName = y.displayName ∧ x.avatarUrl = y.avatarUrl ∧
  x.color = y.color ∧ x.fallbackName = y.fallbackName ∧
  x.searchKey = y.searchKey ∧ x.missing = y.missing

/-- A profile carries at least one truthy identity key. -/
def truthyIdentity (p : Profile) : Bool :=
  truthy p.steamId || truthy p.steamUrl

theorem coreEq_refl (p : Profile) : coreEq p p :=
  ⟨rfl, rfl, rfl, rfl, rfl, rfl, rfl, rfl⟩

theorem profileMatches_congr (p : Profile) {x y : Profile} (h : coreEq x y) :
    profileMatches p x = profileMatches p y := by
  unfold profileMatches
  rw [h.1, h.2.1]

theorem coreEq_overwrite (old p : Profile) :
    coreEq (overwriteProfile old p) p :=
  ⟨rfl, rfl, rfl, rfl, rfl, rfl, rfl, rfl⟩

theorem overwrite_self_of_coreEq {x p : Profile} (h : coreEq x p) :
    overwriteProfile x p = x := by
  obtain ⟨h1, h2, h3, h4, h5, h6, h7, h8⟩ := h
  cases x
  simp only [overwriteProfile, Profile.mk.injEq]
  simp_all

theorem sameStr_self_of_truthy {a : Option String} (h : truthy a = true) :
    sameStr a a = true := by
  cases a with
  | none => simp [truthy] at h
  | some s => simp [sameStr]

theorem selfMatch (p : Profile) (h : truthyIdentity p = true) :
    profileMatches p p = true := by
  unfold truthyIdentity at h
  rcases Bool.or_eq_true_iff.mp h with h1 | h2
  · unfold profileMatches
    rw [h1, sameStr_self_of_truthy h1]
    simp
  · unfold profileMatches
    rw [h2, sameStr_self_of_truthy h2]
    simp

/-- Invariant for the profile-merge fold: `p` has a witness position whose
entry carries `p`'s core fields, with no earlier entry matching `p`. -/
def Wit (p : Profile) (L : List Profile) : Prop :=
  ∃ j, j < L.length ∧ coreEq (L.getD j p) p ∧
    ∀ k, k < j → profileMatches p (L.getD k p) = false

theorem Wit_step_new (L : List Profile) (p : Profile) :
    Wit p (mergeProfilesStep L p) := by
  unfold mergeProfilesStep
  cases hfi : findIndex (fun x => profileMatches p x) L with
  | none =>
    refine ⟨L.length, by simp, ?_, ?_⟩
    · rw [getD_append_self]
      exact coreEq_refl p
    · intro k hk
      rw [getD_append_lt _ _ _ _ hk]
      exact findIndex_none hfi _ (getD_mem _ _ _ hk)
  | some j =>
    have hj := findIndex_lt_length hfi
    refine ⟨j, by rw [List.length_set]; exact hj, ?_, ?_⟩
    · rw [getD_set_self _ _ _ _ hj]
      exact coreEq_overwrite _ p
    · intro k hk
      rw [getD_set_ne _ _ _ _ _ (by omega)]
      exact findIndex_min p hfi k hk

theorem Wit_step_frame (L : List Profile) (q p : Profile)
    (hpq : profileMatches q p = false) (hqp : profileMatches p q = false)
    (hW : Wit p L) : Wit p (mergeProfilesStep L q) := by
  obtain ⟨j, hj, hcore, hmin⟩ := hW
  unfold mergeProfilesStep
  cases hfi : findIndex (fun x => profileMatches q x) L with
  | none =>
    refine ⟨j, by simp; omega, ?_, ?_⟩
    · rw [getD_append_lt _ _ _ _ hj]; exact hcore
    · intro k hk
      rw [getD_append_lt _ _ _ _ (by omega)]
      exact hmin k hk
  | some m =>
    have hm := findIndex_lt_length hfi
    have hmj : m ≠ j := by
      intro hEq
      subst hEq
      have h1 : profileMatches q (L.getD m q) = true := by
        simpa using findIndex_getD q hfi
      rw [getD_irrel _ _ q p hm] at h1
      rw [profileMatches_congr q hcore] at h1
      rw [hpq] at h1
      exact Bool.false_ne_true h1
    refine ⟨j, by rw [List.length_set]; exact hj, ?_, ?_⟩
    · rw [getD_set_ne _ _ _ _ _ (fun hc => hmj hc.symm)]
      exact hcore
    · intro k hk
      by_cases hkm : k = m
      · subst hkm
        rw [getD_set_self _ _ _ _ hm]
        rw [profileMatches_congr p (coreEq_overwrite (L.getD k q) q)]
        exact hqp
      · rw [getD_set_ne _ _ _ _ _ hkm]
        exact hmin k hk

theorem Wit_foldl (qs : List Profile) (L : List Profile) (p : Profile)
    (h : ∀ q ∈ qs, profileMatches q p = false ∧ profileMatches p q = false)
    (hW : Wit p L) : Wit p (qs.foldl mergeProfilesStep L) := by
  induction qs generalizing L with
  | nil => exact hW
  | cons q t ih =>
    refine ih (mergeProfilesStep L q)
      (fun x hx => h x (List.mem_cons_of_mem _ hx)) ?_
    exact Wit_step_frame L q p (h q (List.mem_cons_self _ _)).1
      (h q (List.mem_cons_self _ _)).2 hW

/-- No two distinct incoming profiles match each other by the merge's
identity test. -/
def profDistinct (a b : Profile) : Prop :=
  profileMatches a b = false ∧ profileMatches b a = false

instance (a b : Profile) : Decidable (profDistinct a b) :=
  inferInstanceAs (Decidable (_ ∧ _))

theorem Wit_all (ps : List Profile) (L : List Profile)
    (hpair : ps.Pairwise profDistinct) :
    ∀ p ∈ ps, Wit p (mergeProfiles L ps) := by
  induction ps generalizing L with
  | nil => intro p hp; cases hp
  | cons p₀ rest ih =>
    intro p hp
    obtain ⟨hrel, hrest⟩ := List.pairwise_cons.mp hpair
    rcases List.mem_cons.mp hp with rfl | hp'
    · show Wit p (rest.foldl mergeProfilesStep (mergeProfilesStep L p))
      exact Wit_foldl rest _ p
        (fun q hq => ⟨(hrel q hq).2, (hrel q hq).1⟩)
        (Wit_step_new L p)
    · exact ih (mergeProfilesStep L p₀) hrest p hp'

theorem mergeProfilesStep_fix (L : List Profile) (p : Profile)
    (hW : Wit p L) (ha : truthyIdentity p = true) :
    mergeProfilesStep L p = L := by
  obtain ⟨j, hj, hcore, hmin⟩ := hW
  have hPj : profileMatches p (L.getD j p) = true := by
    rw [profileMatches_congr p hcore]
    exact selfMatch p ha
  have hfi : findIndex (fun x => profileMatches p x) L = some j :=
    findIndex_eq_some_of p hj (by simpa using hPj)
      (fun k hk => by simpa using hmin k hk)
  unfold mergeProfilesStep
  rw [hfi]
  show L.set j (overwriteProfile (L.getD j p) p) = L
  rw [overwrite_self_of_coreEq hcore, set_getD_self]

theorem mergeProfiles_fix (ps : List Profile) (M : List Profile)
    (h : ∀ p ∈ ps, mergeProfilesStep M p = M) : mergeProfiles M ps = M := by
  induction ps with
  | nil => rfl
  | cons p t ih =>
    show mergeProfiles (mergeProfilesStep M p) t = M
    rw [h p (List.mem_cons_self _ _)]
    exact ih (fun q hq => h q (List.mem_cons_of_mem _ hq))

theorem mergeProfiles_idem (C ps : List Profile)
    (hpair : ps.Pairwise profDistinct)
    (ha : ∀ p ∈ ps, truthyIdentity p = true) :
    mergeProfiles (mergeProfiles C ps) ps = mergeProfiles C ps :=
  mergeProfiles_fix ps _ (fun p hp =>
    mergeProfilesStep_fix _ p (Wit_all ps C hpair p hp) (ha p hp))

theorem truthy_jsOr_default (b : Option String) :
    truthy (jsOr b (some SERVER_NAME)) = true := by
  by_cases hb : truthy b
  · simp [jsOr, hb]
  · simp only [jsOr, hb, Bool.false_eq_true, if_false]
    decide

theorem jsOr_serverName_idem (a b : Option String) :
    jsOr a (jsOr (jsOr a (jsOr b (some SERVER_NAME))) (some SERVER_NAME)) =
      jsOr a (jsOr b (some SERVER_NAME)) := by
  have hSN : truthy (some SERVER_NAME) = true := by decide
  by_cases ha : truthy a
  · simp [jsOr, ha]
  · by_cases hb : truthy b
    · simp [jsOr, ha, hb]
    · simp [jsOr, ha, hb, hSN]

theorem orElse_self_assoc (a b : Option String) : (a <|> (a <|> b)) = (a <|> b) := by
  cases a <;> rfl

theorem Cache_eq_of_fields {a b : Cache}
    (h1 : a.serverName = b.serverName) (h2 : a.profiles = b.profiles)
    (h3 : a.tabs = b.tabs) (h4 : a.missing = b.missing)
    (h5 : a.serverInfo = b.serverInfo) (h6 : a.updatedAt = b.updatedAt) :
    a = b := by
  cases a
  cases b
  simp_all

theorem mergedTabOf_idem (ex td : Tab) :
    mergedTabOf (mergedTabOf ex td) td = mergedTabOf ex td := by
  unfold mergedTabOf
  by_cases h : td.metrics.isEmpty <;> simp [h, upsertAll_idem]

theorem mergeTabStep_fix {tabs : List (String × Tab)} {k : String} {td X : Tab}
    (hget : getFirst tabs k = some X) (hfix : mergedTabOf X td = X) :
    mergeTabStep tabs (k, td) = tabs := by
  show upsert tabs k
      { metrics := if td.metrics.isEmpty
          then ((getFirst tabs k).getD {}).metrics else td.metrics,
        stats := upsertAll ((getFirst tabs k).getD {}).stats td.stats,
        columnMap := td.columnMap } = tabs
  rw [hget]
  simp only [Option.getD_some]
  show upsert tabs k (mergedTabOf X td) = tabs
  rw [hfix]
  exact upsert_same _ _ _ hget

theorem mergeTabs_idem (l : List (String × Tab)) :
    (l.map Prod.fst).Nodup → ∀ T : List (String × Tab),
      l.foldl mergeTabStep (l.foldl mergeTabStep T) = l.foldl mergeTabStep T := by
  induction l with
  | nil => intro _ T; rfl
  | cons e t ih =>
    intro hnodup T
    obtain ⟨k, td⟩ := e
    have hnd : (t.map Prod.fst).Nodup := (List.nodup_cons.mp (by simpa using hnodup)).2
    have hhead : k ∉ t.map Prod.fst := (List.nodup_cons.mp (by simpa using hnodup)).1
    have hframe : ∀ x ∈ t, x.1 ≠ k := by
      intro x hx hc
      exact hhead (List.mem_map.mpr ⟨x, hx, hc⟩)
    show t.foldl mergeTabStep
        (mergeTabStep (t.foldl mergeTabStep (mergeTabStep T (k, td))) (k, td)) = _
    have hget : getFirst (t.foldl mergeTabStep (mergeTabStep T (k, td))) k =
        some (mergedTabOf ((getFirst T k).getD {}) td) := by
      rw [getFirst_mergeTabs_frame t _ k hframe]
      show getFirst (upsert T k _) k = _
      rw [getFirst_upsert]
      simp [mergedTabOf]
    rw [mergeTabStep_fix hget (mergedTabOf_idem _ td)]
    exact ih hnd (mergeTabStep T (k, td))

/-- C2 counterexample.  `merge(merge(C,R), R) = merge(C,R)` fails as a
universal statement, even at a fixed merge time.  First conjunct: three
incoming profiles whose identities chain (`q` shares a steamId with `p`, `r`
shares a steamUrl with `q`) leave a merged entry that no longer matches `p`,
so the second merge appends a duplicate.  Second conjunct: an incoming profile
with no truthy identity key never matches anything, including itself, and is
appended again on the second merge. -/
theorem merge_idempotent_counterexample :
    (let r1 : ScrapeResult :=
      { profiles := [{ steamId := some "A", steamUrl := some "V" },
                     { steamId := some "A", steamUrl := some "U" },
                     { steamId := some "B", steamUrl := some "U" }] }
     mergePlayerStats (some (mergePlayerStats none r1 0)) r1 0 ≠
       mergePlayerStats none r1 0) ∧
    (let r2 : ScrapeResult := { profiles := [{ displayName := some "NoIdentity" }] }
     mergePlayerStats (some (mergePlayerStats none r2 0)) r2 0 ≠
       mergePlayerStats none r2 0) := by
  constructor <;> decide

/-- C2 (amended).  At a fixed merge time, `merge(merge(C,R), R) = merge(C,R)`
(every field: serverName, serverInfo, updatedAt, missing, profiles, and every
tab's stats, metrics and columnMap) provided every incoming profile carries a
truthy steamId or steamUrl, no two distinct incoming profiles match each other
by the merge's identity test, and `R`'s tab keys are distinct.  Without the
profile conditions a second merge can append duplicate profile entries (see
the counterexample); everything other than the profiles array is idempotent
unconditionally given distinct tab keys. -/
theorem merge_idempotent (cache : Option Cache) (r : ScrapeResult) (now : Nat)
    (ha : ∀ p ∈ r.profiles, truthyIdentity p = true)
    (hb : r.profiles.Pairwise profDistinct)
    (htabs : (r.tabs.map Prod.fst).Nodup) :
    mergePlayerStats (some (mergePlayerStats cache r now)) r now =
      mergePlayerStats cache r now := by
  apply Cache_eq_of_fields
  · exact jsOr_serverName_idem r.serverName
      (match cache with | some c => c.serverName | none => none)
  · exact mergeProfiles_idem
      (match cache with | some c => c.profiles | none => []) r.profiles hb ha
  · exact mergeTabs_idem r.tabs htabs
      (match cache with | some c => c.tabs | none => [])
  · rfl
  · exact orElse_self_assoc r.serverInfo
      (match cache with | some c => c.serverInfo | none => none)
  · rfl

/-- Witness for the amended C2 at a concrete cache and scrape result. -/
theorem merge_idempotent_witness :
    let c : Cache :=
      { serverName := some "US Monthly (Premium)",
        profiles := [{ steamId := some "11111111111111111",
                       displayName := some "Old" }],
        tabs := [("pvp", { metrics := ["KDR"], stats := [("Old", [("KDR", some 1)])] })] }
    let r : ScrapeResult :=
      { profiles := [{ steamId := some "11111111111111111",
                       steamUrl := some "https://steamcommunity.com/profiles/11111111111111111",
                       displayName := some "New" },
                     { steamId := some "22222222222222222",
                       displayName := some "Other" }],
        tabs := [("pvp", { metrics := [], stats := [("New", [("KDR", some 2)])] })] }
    mergePlayerStats (some (mergePlayerStats (some c) r 3)) r 3 =
      mergePlayerStats (some c) r 3 := by
  intro c r
  exact merge_idempotent (some c) r 3 (by decide) (by decide) (by decide)

/-- ASCII lower-casing of one character (the strings this system compares are
ASCII: server names, URLs, steam ids). -/
def charLower (c : Char) : Char :=
  if 'A' ≤ c ∧ c ≤ 'Z' then Char.ofNat (c.toNat + 32) else c

/-- ASCII `String.toLowerCase`. -/
def jsToLower (s : String) : String :=
  String.mk (s.toList.map charLower)

/-- If `sep` is a prefix of `l`, return the remainder after it. -/
def dropSeq : List Char → List Char → Option (List Char)
  | [], l => some l
  | _, [] => none
  | c :: cs, x :: xs => if x = c then dropSeq cs xs else none

/-- Split a character list on a single separator character. -/
def splitChar (c : Char) : List Char → List (List Char)
  | [] => [[]]
  | x :: xs =>
    if x = c then [] :: splitChar c xs
    else
      match splitChar c xs with
      | [] => [[x]]
      | h :: t => (x :: h) :: t

/-- Split a URL string at its first "://", returning (scheme, remainder). -/
def schemeSplit : List Char → Option (List Char × List Char)
  | [] => none
  | x :: xs =>
    match dropSeq [':', '/', '/'] (x :: xs) with
    | some rest => some ([], rest)
    | none =>
      match schemeSplit xs with
      | some (s, r) => some (x :: s, r)
      | none => none

/-- moose_scraper.js lines 230-238: `steamIdFromUrl` — the last non-empty path
segment of the URL, or null when URL parsing fails (no scheme) or the path is
empty.  The WHATWG URL parser is modelled for the URL shapes this repository
handles: `scheme://host/seg/.../seg[?query][#frag]`. -/
def steamIdFromUrl (steamUrl : Option String) : Option String :=
  match steamUrl with
  | none => none
  | some s =>
    match schemeSplit s.toList with
    | none => none
    | some (scheme, rest) =>
      if scheme.isEmpty then none
      else
        let pathPart := rest.takeWhile (fun c => !(c = '?' || c = '#'))
        let parts := splitChar '/' pathPart
        let segs := (parts.drop 1).filter (fun seg => !seg.isEmpty)
        match segs.getLast? with
        | some seg => some (String.mk seg)
        | none => none

/-- server.js lines 17-19: `isValidSteamId` — 17 decimal digits. -/
def isValidSteamId (steamId : Option String) : Bool :=
  match steamId with
  | none => false
  | some s => s.length = 17 && s.toList.all Char.isDigit

/-- Scan for an occurrence of `pat` followed by at least one non-`/`
character (the regex `steamcommunity\.com\/id\/[^/]+` without anchors). -/
def hasSegAfter (pat : List Char) : List Char → Bool
  | [] => false
  | x :: xs =>
    match dropSeq pat (x :: xs) with
    | some (c :: _) => if c ≠ '/' then true else hasSegAfter pat xs
    | some [] => hasSegAfter pat xs
    | none => hasSegAfter pat xs

/-- server.js regex `/steamcommunity\.com\/id\/[^/]+/i` applied to a string. -/
def vanityUrlTest (s : String) : Bool :=
  hasSegAfter "steamcommunity.com/id/".toList (jsToLower s).toList

/-- server.js lines 514-522: the `needsSteam64` flag computed per response
profile. -/
def needsSteam64Of (p : Profile) : Bool :=
  let candidateId := jsOr p.steamId p.storedSteamId
  !(isValidSteamId candidateId) &&
    (truthy candidateId ||
      vanityUrlTest ((jsOr p.steamUrl p.storedSteamUrl).getD ""))

/-- Insert into a JS `Map` keyed by a string field, skipping falsy keys;
later inserts overwrite earlier ones in place (`Map.set`). -/
def mapInsertTruthy {α : Type} (m : List (String × α)) (key : Option String)
    (v : α) : List (String × α) :=
  match key with
  | some s => if s.isEmpty then m else upsert m s v
  | none => m

/-- JS `key && map.get(String(key))`. -/
def lookupTruthy {α : Type} (m : List (String × α)) (key : Option String) :
    Option α :=
  match key with
  | some s => if s.isEmpty then none else getFirst m s
  | none => none

/-- server.js lines 448-451: `bySteamId` map of `mergeCachedProfiles`. -/
def playersById (players : List Profile) : List (String × Profile) :=
  players.foldl (fun m pl => mapInsertTruthy m pl.steamId pl) []

/-- server.js lines 448-451: `bySteamUrl` map of `mergeCachedProfiles`. -/
def playersByUrl (players : List Profile) : List (String × Profile) :=
  players.foldl (fun m pl => mapInsertTruthy m pl.steamUrl pl) []

/-- server.js lines 445-472: `mergeCachedProfiles(profiles, players)`. -/
def mergeCachedProfiles (profiles players : List Profile) : List Profile :=
  let byId := playersById players
  let byUrl := playersByUrl players
  (profiles.map (fun profile =>
    match lookupTruthy byId profile.steamId <|>
        lookupTruthy byUrl profile.steamUrl with
    | none => profile
    | some pl =>
      { profile with
        steamUrl := jsOr pl.steamUrl profile.steamUrl
        steamId := jsOr pl.steamId profile.steamId
        displayName := jsOr pl.displayName profile.displayName
        avatarUrl := jsOr pl.avatarUrl profile.avatarUrl })).filter
    (fun profile =>
      (lookupTruthy byId profile.steamId).isSome ||
        (lookupTruthy byUrl profile.steamUrl).isSome)

/-- server.js lines 422-429: the indexed `bySteamId` map of
`attachPlayerIds`. -/
def idxById (players : List Profile) : List (String × (Nat × Profile)) :=
  players.enum.foldl (fun m ip => mapInsertTruthy m ip.2.steamId ip) []

/-- server.js lines 422-429: the indexed `bySteamUrl` map of
`attachPlayerIds`. -/
def idxByUrl (players : List Profile) : List (String × (Nat × Profile)) :=
  players.enum.foldl (fun m ip => mapInsertTruthy m ip.2.steamUrl ip) []

/-- server.js lines 430-442: annotate one profile with the matching roster
index and stored identity fields. -/
def attachOne (byId byUrl : List (String × (Nat × Profile)))
    (profile : Profile) : Profile :=
  match lookupTruthy byId profile.steamId <|>
      lookupTruthy byUrl profile.steamUrl with
  | none => profile
  | some ip =>
    { profile with
      playerId := some ip.1
      storedSteamUrl := truthyOrNone ip.2.steamUrl
      storedSteamId := truthyOrNone ip.2.steamId }

/-- server.js lines 421-443: `attachPlayerIds(profiles, players)`. -/
def attachPlayerIds (profiles players : List Profile) : List Profile :=
  profiles.map (attachOne (idxById players) (idxByUrl players))

/-- server.js line 476: the stat key a profile contributes to the
visible-stat filter. -/
def statKeyOf (p : Profile) : Option String :=
  jsOr p.displayName (jsOr p.fallbackName (jsOr p.steamId p.steamUrl))

/-- server.js lines 474-490: `filterStatsToProfiles(tabs, profiles)`. -/
def filterStatsToProfiles (tabs : List (String × Tab))
    (profiles : List Profile) : List (String × Tab) :=
  let keys := profiles.filterMap (fun p => truthyOrNone (statKeyOf p))
  tabs.map (fun e =>
    (e.1, { e.2 with stats := e.2.stats.filter (fun s => keys.contains s.1) }))

/-- server.js line 497 and 503: `p.steamId || steamIdFromUrl(p.steamUrl)`,
kept only when truthy. -/
def derivedId (p : Profile) : Option String :=
  truthyOrNone (jsOr p.steamId (steamIdFromUrl p.steamUrl))

/-- The placeholder built for a roster player absent from the merged cache
profiles (server.js lines 506-512). -/
def placeholderOf (player : Profile) : Profile :=
  { steamUrl := player.steamUrl
    steamId := player.steamId
    displayName := jsOr player.displayName (jsOr player.steamId player.steamUrl)
    fallbackName := jsOr player.displayName (jsOr player.steamId player.steamUrl)
    avatarUrl := jsOr player.avatarUrl (some FALLBACK_AVATAR) }

/-- The per-profile annotation of server.js lines 514-523. -/
def respAnnotate (p : Profile) : Profile :=
  { p with needsSteam64 := some (needsSteam64Of p) }

/-- The response shape produced by `buildResponseFromCache`. -/
structure Response where
  serverName : String
  metrics : List String
  stats : List (String × StatLine)
  profiles : List Profile
  tabs : List (String × Tab)
  missing : List MissingEntry
  serverInfo : Option String
  updatedAt : Option Nat
deriving DecidableEq, Repr

/-- server.js lines 492-535: `buildResponseFromCache(cache, players)` for a
non-null cache (a null cache returns null at line 493 and the routes fall
back). -/
def buildResponseFromCache (cache : Cache) (players : List Profile) :
    Response :=
  let mergedProfiles := mergeCachedProfiles cache.profiles players
  let mergedIds : List String := mergedProfiles.filterMap derivedId
  let missingProfiles :=
    (players.filter (fun player =>
      match derivedId player with
      | some d => !(mergedIds.contains d)
      | none => false)).map placeholderOf
  let combinedProfiles := mergedProfiles ++ missingProfiles
  let profilesWithIds :=
    (attachPlayerIds combinedProfiles players).map respAnnotate
  let tabs := filterStatsToProfiles cache.tabs combinedProfiles
  { serverName := (jsOr cache.serverName (some SERVER_NAME)).getD SERVER_NAME
    metrics := ((getFirst tabs "pvp").map Tab.metrics).getD []
    stats := ((getFirst tabs "pvp").map Tab.stats).getD []
    profiles := profilesWithIds
    tabs := tabs
    missing := cache.missing
    serverInfo := cache.serverInfo
    updatedAt :=
      match cache.updatedAt with
      | some n => if n = 0 then none else some n
      | none => none }

theorem attachOne_core (byId byUrl : List (String × (Nat × Profile)))
    (p : Profile) :
    (attachOne byId byUrl p).steamId = p.steamId ∧
    (attachOne byId byUrl p).steamUrl = p.steamUrl ∧
    (attachOne byId byUrl p).displayName = p.displayName ∧
    (attachOne byId byUrl p).fallbackName = p.fallbackName ∧
    (attachOne byId byUrl p).avatarUrl = p.avatarUrl := by
  unfold attachOne
  cases lookupTruthy byId p.steamId <|> lookupTruthy byUrl p.steamUrl <;>
    simp

theorem respAnnotate_core (p : Profile) :
    (respAnnotate p).steamId = p.steamId ∧
    (respAnnotate p).steamUrl = p.steamUrl ∧
    (respAnnotate p).displayName = p.displayName ∧
    (respAnnotate p).fallbackName = p.fallbackName ∧
    (respAnnotate p).avatarUrl = p.avatarUrl := by
  unfold respAnnotate
  simp

theorem derivedId_congr {a b : Profile} (h1 : a.steamId = b.steamId)
    (h2 : a.steamUrl = b.steamUrl) : derivedId a = derivedId b := by
  unfold derivedId
  rw [h1, h2]

/-- The image of a combined profile in the final response profiles keeps its
identity and display fields. -/
theorem response_profile_image (cache : Cache) (players : List Profile)
    {x : Profile}
    (hx : x ∈ mergeCachedProfiles cache.profiles players ++
      (players.filter (fun player =>
        match derivedId player with
        | some d => !((mergeCachedProfiles cache.profiles players).filterMap
            derivedId).contains d
        | none => false)).map placeholderOf) :
    ∃ prof ∈ (buildResponseFromCache cache players).profiles,
      prof.steamId = x.steamId ∧ prof.steamUrl = x.steamUrl ∧
      prof.displayName = x.displayName ∧ prof.fallbackName = x.fallbackName ∧
      prof.avatarUrl = x.avatarUrl := by
  refine ⟨respAnnotate (attachOne (idxById players) (idxByUrl players) x), ?_, ?_⟩
  · show _ ∈ (attachPlayerIds _ players).map respAnnotate
    exact List.mem_map_of_mem respAnnotate (List.mem_map_of_mem _ hx)
  · obtain ⟨a1, a2, a3, a4, a5⟩ :=
      attachOne_core (idxById players) (idxByUrl players) x
    obtain ⟨r1, r2, r3, r4, r5⟩ :=
      respAnnotate_core (attachOne (idxById players) (idxByUrl players) x)
    exact ⟨r1.trans a1, r2.trans a2, r3.trans a3, r4.trans a4, r5.trans a5⟩

/-- C4 counterexample.  A roster player whose steamId is nullish and whose
steamUrl does not parse as a URL is silently dropped from the response: not
merged, and excluded from the placeholder list because its derived id is
falsy (server.js line 504 `return id && ...`). -/
theorem response_drops_unresolvable_player :
    let player : Profile := { steamUrl := some "not a url" }
    (player ∈ [player]) ∧
      (buildResponseFromCache {} [player]).profiles = [] := by
  constructor
  · exact List.mem_singleton.mpr rfl
  · decide

/-- C4 (amended).  Every roster player whose steamId is truthy or whose
steamUrl yields an id via `steamIdFromUrl` appears in the response profiles:
some response profile carries the player's derived id.  If additionally no
merged cache profile carries that derived id, the response contains the
placeholder for that player — steamId and steamUrl copied from the player,
displayName and fallbackName falling back to steamId then steamUrl, avatarUrl
falling back to the fixed fallback avatar.  A roster player with neither a
truthy steamId nor a parseable steamUrl is dropped from the response (see the
counterexample), contrary to the original claim's universal "no roster player
is absent". -/
theorem response_contains_identified_players (cache : Cache)
    (players : List Profile) (player : Profile) (hp : player ∈ players)
    (d : String) (hd : derivedId player = some d) :
    (∃ prof ∈ (buildResponseFromCache cache players).profiles,
      derivedId prof = some d) ∧
    (((mergeCachedProfiles cache.profiles players).filterMap
        derivedId).contains d = false →
      ∃ prof ∈ (buildResponseFromCache cache players).profiles,
        prof.steamId = player.steamId ∧ prof.steamUrl = player.steamUrl ∧
        prof.displayName =
          jsOr player.displayName (jsOr player.steamId player.steamUrl) ∧
        prof.fallbackName =
          jsOr player.displayName (jsOr player.steamId player.steamUrl) ∧
        prof.avatarUrl = jsOr player.avatarUrl (some FALLBACK_AVATAR)) := by
  constructor
  · by_cases hc : ((mergeCachedProfiles cache.profiles players).filterMap
        derivedId).contains d = true
    · have hdm : d ∈ (mergeCachedProfiles cache.profiles players).filterMap
          derivedId := by
        rw [← List.elem_iff]
        exact hc
      obtain ⟨m, hm, hmd⟩ := List.mem_filterMap.mp hdm
      obtain ⟨prof, hpmem, f1, f2, _, _, _⟩ :=
        response_profile_image cache players (List.mem_append_left _ hm)
      refine ⟨prof, hpmem, ?_⟩
      rw [derivedId_congr f1 f2, hmd]
    · have hc' : ((mergeCachedProfiles cache.profiles players).filterMap
          derivedId).contains d = false := by
        cases h : ((mergeCachedProfiles cache.profiles players).filterMap
            derivedId).contains d
        · rfl
        · exact absurd h hc
      have hmemF : player ∈ players.filter (fun player =>
          match derivedId player with
          | some d' => !((mergeCachedProfiles cache.profiles players).filterMap
              derivedId).contains d'
          | none => false) := by
        rw [List.mem_filter]
        refine ⟨hp, ?_⟩
        rw [hd]
        show (!((mergeCachedProfiles cache.profiles players).filterMap
            derivedId).contains d) = true
        rw [hc']
        rfl
      obtain ⟨prof, hpmem, f1, f2, _, _, _⟩ :=
        response_profile_image cache players
          (List.mem_append_right _ (List.mem_map_of_mem placeholderOf hmemF))
      refine ⟨prof, hpmem, ?_⟩
      rw [derivedId_congr f1 f2]
      show derivedId (placeholderOf player) = some d
      rw [derivedId_congr (a := placeholderOf player) (b := player) rfl rfl]
      exact hd
  · intro hmiss
    have hmemF : player ∈ players.filter (fun player =>
        match derivedId player with
        | some d' => !((mergeCachedProfiles cache.profiles players).filterMap
            derivedId).contains d'
        | none => false) := by
      rw [List.mem_filter]
      refine ⟨hp, ?_⟩
      rw [hd]
      show (!((mergeCachedProfiles cache.profiles players).filterMap
          derivedId).contains d) = true
      rw [hmiss]
      rfl
    obtain ⟨prof, hpmem, f1, f2, f3, f4, f5⟩ :=
      response_profile_image cache players
        (List.mem_append_right _ (List.mem_map_of_mem placeholderOf hmemF))
    exact ⟨prof, hpmem, f1, f2, f3, f4, f5⟩

/-- Witness for the amended C4 at a concrete cache and roster. -/
theorem response_contains_identified_players_witness :
    let player : Profile :=
      { steamId := some "33333333333333333", displayName := some "Rosterer" }
    let cache : Cache :=
      { profiles := [{ steamId := some "11111111111111111" }] }
    (∃ prof ∈ (buildResponseFromCache cache [player]).profiles,
      derivedId prof = some "33333333333333333") ∧
    (((mergeCachedProfiles cache.profiles [player]).filterMap
        derivedId).contains "33333333333333333" = false →
      ∃ prof ∈ (buildResponseFromCache cache [player]).profiles,
        prof.steamId = player.steamId ∧ prof.steamUrl = player.steamUrl ∧
        prof.displayName =
          jsOr player.displayName (jsOr player.steamId player.steamUrl) ∧
        prof.fallbackName =
          jsOr player.displayName (jsOr player.steamId player.steamUrl) ∧
        prof.avatarUrl = jsOr player.avatarUrl (some FALLBACK_AVATAR)) := by
  intro player cache
  exact response_contains_identified_players cache [player] player
    (List.mem_singleton.mpr rfl) "33333333333333333" (by decide)

/-- server.js line 577: `player?.steamId ? String(player.steamId) : null`. -/
def removedId (player : Profile) : Option String := truthyOrNone player.steamId

/-- server.js line 578: the removed player's truthy steamUrl or null. -/
def removedUrl (player : Profile) : Option String := truthyOrNone player.steamUrl

/-- server.js line 579: `player?.displayName || null`. -/
def removedName (player : Profile) : Option String :=
  truthyOrNone player.displayName

/-- The guarded equality `target && field && String(field) === target` used
throughout `removePlayerFromCache`. -/
def matchesTarget (target field : Option String) : Bool :=
  match target, field with
  | some t, some f => !f.isEmpty && f = t
  | _, _ => false

/-- server.js lines 581-585: a cache profile matching the removed player. -/
def removedProfMatch (player p : Profile) : Bool :=
  matchesTarget (removedId player) p.steamId ||
    matchesTarget (removedUrl player) p.steamUrl

/-- server.js lines 593-599: a missing entry matching the removed player. -/
def removedMissMatch (player : Profile) (item : MissingEntry) : Bool :=
  matchesTarget (removedId player) item.steamId ||
    matchesTarget (removedUrl player) item.steamUrl

/-- JS `if (k && stats[k]) delete stats[k]` for an optional key. -/
def eraseKeyOpt (m : List (String × StatLine)) (o : Option String) :
    List (String × StatLine) :=
  match o with
  | some s => m.filter (fun e => decide (e.1 ≠ s))
  | none => m

/-- The stat keys purged for a removed player: display name, steamId,
steamUrl — whichever are truthy. -/
def removedKeys (player : Profile) : List String :=
  (removedName player).toList ++ (removedId player).toList ++
    (removedUrl player).toList

/-- server.js lines 575-602: `removePlayerFromCache(cache, player)` for a
non-null cache, with `Date.now()` passed in as `now`. -/
def removePlayerFromCache (cache : Cache) (player : Profile) (now : Nat) :
    Cache :=
  { cache with
    profiles := cache.profiles.filter (fun p => !removedProfMatch player p)
    tabs := cache.tabs.map (fun e =>
      (e.1, { e.2 with
        stats := eraseKeyOpt (eraseKeyOpt
          (eraseKeyOpt e.2.stats (removedName player)) (removedId player))
          (removedUrl player) }))
    missing := cache.missing.filter (fun item => !removedMissMatch player item)
    updatedAt := some now }

/-- server.js lines 330-335: the DELETE route purges the removed player from
every server's cache in the store. -/
def removePlayerFromStore (servers : List (String × Cache)) (player : Profile)
    (now : Nat) : List (String × Cache) :=
  servers.map (fun e => (e.1, removePlayerFromCache e.2 player now))

theorem getFirst_erase_self (m : List (String × StatLine)) (s : String) :
    getFirst (m.filter (fun e => decide (e.1 ≠ s))) s = none := by
  induction m with
  | nil => rfl
  | cons e t ih =>
    obtain ⟨a, b⟩ := e
    rw [List.filter_cons]
    by_cases h : a = s
    · rw [if_neg (by simp [h])]
      exact ih
    · rw [if_pos (by simp [h])]
      show (if a = s then some b else getFirst (t.filter _) s) = none
      rw [if_neg h]
      exact ih

theorem getFirst_erase_ne (m : List (String × StatLine)) (s k : String)
    (h : k ≠ s) :
    getFirst (m.filter (fun e => decide (e.1 ≠ s))) k = getFirst m k := by
  induction m with
  | nil => rfl
  | cons e t ih =>
    obtain ⟨a, b⟩ := e
    rw [List.filter_cons]
    by_cases ha : a = s
    · have hak : ¬ a = k := fun hc => h (by rw [← hc]; exact ha)
      rw [if_neg (by simp [ha])]
      rw [ih]
      show getFirst t k = (if a = k then some b else getFirst t k)
      rw [if_neg hak]
    · rw [if_pos (by simp [ha])]
      show (if a = k then some b else getFirst (t.filter _) k) =
        (if a = k then some b else getFirst t k)
      by_cases hak : a = k
      · rw [if_pos hak, if_pos hak]
      · rw [if_neg hak, if_neg hak]
        exact ih

theorem getFirst_eraseKeyOpt_ne (m : List (String × StatLine))
    (o : Option String) (k : String) (h : ∀ s, o = some s → k ≠ s) :
    getFirst (eraseKeyOpt m o) k = getFirst m k := by
  cases o with
  | none => rfl
  | some s => exact getFirst_erase_ne m s k (h s rfl)

theorem mem_removedKeys {player : Profile} {key : String} :
    key ∈ removedKeys player ↔
      removedName player = some key ∨ removedId player = some key ∨
        removedUrl player = some key := by
  unfold removedKeys
  cases removedName player <;> cases removedId player <;>
    cases removedUrl player <;> simp [Option.toList] <;> tauto

/-- C5.  Removing a player purges, in every server's cache: the cache
profiles matching the removed player by truthy steamId or steamUrl equality,
the per-tab stat entries keyed by the player's display name, steamId or
steamUrl, and the matching missing entries — while every non-matching
profile, every stat entry under any other key, and every non-matching missing
entry is retained unchanged. -/
theorem remove_player_spec (servers : List (String × Cache))
    (player : Profile) (now : Nat) (n : String) (c : Cache)
    (hmem : (n, c) ∈ servers) :
    (n, removePlayerFromCache c player now) ∈
        removePlayerFromStore servers player now ∧
    (∀ p ∈ (removePlayerFromCache c player now).profiles,
        p ∈ c.profiles ∧ removedProfMatch player p = false) ∧
    (∀ p ∈ c.profiles, removedProfMatch player p = false →
        p ∈ (removePlayerFromCache c player now).profiles) ∧
    (∀ k td', (k, td') ∈ (removePlayerFromCache c player now).tabs →
      ∃ td, (k, td) ∈ c.tabs ∧
        (∀ key ∈ removedKeys player, getFirst td'.stats key = none) ∧
        (∀ key, key ∉ removedKeys player →
          getFirst td'.stats key = getFirst td.stats key) ∧
        (∀ e ∈ td.stats, e.1 ∉ removedKeys player → e ∈ td'.stats)) ∧
    (∀ m ∈ (removePlayerFromCache c player now).missing,
        m ∈ c.missing ∧ removedMissMatch player m = false) ∧
    (∀ m ∈ c.missing, removedMissMatch player m = false →
        m ∈ (removePlayerFromCache c player now).missing) := by
  refine ⟨?_, ?_, ?_, ?_, ?_, ?_⟩
  · exact List.mem_map_of_mem _ hmem
  · intro p hp
    have := List.mem_filter.mp hp
    exact ⟨this.1, by simpa using this.2⟩
  · intro p hp hno
    exact List.mem_filter.mpr ⟨hp, by simp [hno]⟩
  · intro k td' htd'
    obtain ⟨e, he, heq⟩ := List.mem_map.mp htd'
    obtain ⟨hk, htd⟩ := Prod.mk.injEq .. ▸ heq
    refine ⟨e.2, by rw [← hk]; exact (Prod.mk.eta (p := e)) ▸ he, ?_, ?_, ?_⟩
    · intro key hkey
      rw [← htd]
      show getFirst (eraseKeyOpt (eraseKeyOpt
        (eraseKeyOpt e.2.stats (removedName player)) (removedId player))
        (removedUrl player)) key = none
      rcases mem_removedKeys.mp hkey with hcase | hcase | hcase
      all_goals {
        first
        | (by_cases hu : removedUrl player = some key
           · rw [hu]
             exact getFirst_erase_self _ key
           · rw [getFirst_eraseKeyOpt_ne _ _ _
               (fun s hs hc => hu (by rw [hs, hc]))]
             by_cases hi : removedId player = some key
             · rw [hi]
               exact getFirst_erase_self _ key
             · rw [getFirst_eraseKeyOpt_ne _ _ _
                 (fun s hs hc => hi (by rw [hs, hc]))]
               rw [hcase]
               exact getFirst_erase_self _ key)
        | (by_cases hu : removedUrl player = some key
           · rw [hu]
             exact getFirst_erase_self _ key
           · rw [getFirst_eraseKeyOpt_ne _ _ _
               (fun s hs hc => hu (by rw [hs, hc]))]
             rw [hcase]
             exact getFirst_erase_self _ key)
        | (rw [hcase]; exact getFirst_erase_self _ key)
      }
    · intro key hkey
      rw [← htd]
      show getFirst (eraseKeyOpt (eraseKeyOpt
        (eraseKeyOpt e.2.stats (removedName player)) (removedId player))
        (removedUrl player)) key = _
      rw [getFirst_eraseKeyOpt_ne _ _ _ (fun s hs hc => hkey
          (mem_removedKeys.mpr (Or.inr (Or.inr (by rw [hs, hc]))))),
        getFirst_eraseKeyOpt_ne _ _ _ (fun s hs hc => hkey
          (mem_removedKeys.mpr (Or.inr (Or.inl (by rw [hs, hc]))))),
        getFirst_eraseKeyOpt_ne _ _ _ (fun s hs hc => hkey
          (mem_removedKeys.mpr (Or.inl (by rw [hs, hc]))))]
    · intro x hx hkx
      rw [← htd]
      show x ∈ eraseKeyOpt (eraseKeyOpt
        (eraseKeyOpt e.2.stats (removedName player)) (removedId player))
        (removedUrl player)
      have mk1 : ∀ (m : List (String × StatLine)) (o : Option String),
          x ∈ m → (∀ s, o = some s → x.1 ≠ s) → x ∈ eraseKeyOpt m o := by
        intro m o hxm ho
        cases o with
        | none => exact hxm
        | some s => exact List.mem_filter.mpr ⟨hxm, by simp [ho s rfl]⟩
      refine mk1 _ _ (mk1 _ _ (mk1 _ _ hx ?_) ?_) ?_
      · intro s hs hc
        exact hkx (mem_removedKeys.mpr (Or.inl (by rw [hs, hc])))
      · intro s hs hc
        exact hkx (mem_removedKeys.mpr (Or.inr (Or.inl (by rw [hs, hc]))))
      · intro s hs hc
        exact hkx (mem_removedKeys.mpr (Or.inr (Or.inr (by rw [hs, hc]))))
  · intro m hm
    have := List.mem_filter.mp hm
    exact ⟨this.1, by simpa using this.2⟩
  · intro m hm hno
    exact List.mem_filter.mpr ⟨hm, by simp [hno]⟩

/-- Witness for C5 at a concrete two-server store. -/
theorem remove_player_spec_witness :
    let victim : Profile :=
      { steamId := some "11111111111111111", displayName := some "Victim" }
    let keeper : Profile := { steamId := some "22222222222222222" }
    let mkCache : Cache :=
      { profiles := [victim, keeper],
        tabs := [("pvp",
          { metrics := ["KDR"],
            stats := [("Victim", [("KDR", some 1)]), ("Keeper", [("KDR", some 2)])] })],
        missing := [{ steamId := some "11111111111111111", reason := "gone" }] }
    let servers := [("US Monthly (Premium)", mkCache)]
    ("US Monthly (Premium)", removePlayerFromCache mkCache victim 9) ∈
        removePlayerFromStore servers victim 9 ∧
    (∀ p ∈ (removePlayerFromCache mkCache victim 9).profiles,
        p ∈ mkCache.profiles ∧ removedProfMatch victim p = false) ∧
    (∀ p ∈ mkCache.profiles, removedProfMatch victim p = false →
        p ∈ (removePlayerFromCache mkCache victim 9).profiles) ∧
    (∀ k td', (k, td') ∈ (removePlayerFromCache mkCache victim 9).tabs →
      ∃ td, (k, td) ∈ mkCache.tabs ∧
        (∀ key ∈ removedKeys victim, getFirst td'.stats key = none) ∧
        (∀ key, key ∉ removedKeys victim →
          getFirst td'.stats key = getFirst td.stats key) ∧
        (∀ e ∈ td.stats, e.1 ∉ removedKeys victim → e ∈ td'.stats)) ∧
    (∀ m ∈ (removePlayerFromCache mkCache victim 9).missing,
        m ∈ mkCache.missing ∧ removedMissMatch victim m = false) ∧
    (∀ m ∈ mkCache.missing, removedMissMatch victim m = false →
        m ∈ (removePlayerFromCache mkCache victim 9).missing) := by
  intro victim keeper mkCache servers
  exact remove_player_spec servers victim 9 "US Monthly (Premium)" mkCache
    (List.mem_singleton.mpr rfl)

/-- ASCII whitespace for JS `String.prototype.trim` (the inputs this system
trims are ASCII). -/
def isJsSpace (c : Char) : Bool :=
  c = ' ' || c = '\t' || c = '\n' || c = '\r'

/-- JS `String.prototype.trim` for ASCII strings. -/
def jsTrim (s : String) : String :=
  String.mk (((s.toList.dropWhile isJsSpace).reverse.dropWhile isJsSpace).reverse)

/-- server.js lines 21-26: `normalizeServerName(serverName)`. -/
def normalizeServerName (serverName : Option String) : String :=
  if truthy serverName = false then SERVER_NAME
  else
    let trimmed := jsTrim (serverName.getD "")
    match ALLOWED_SERVERS.find? (fun name => jsToLower name == jsToLower trimmed) with
    | some m => m
    | none => SERVER_NAME

/-- server.js lines 160-163: `getServerCache(store, serverName)`. -/
def getServerCache (servers : List (String × Cache)) (serverName : String) :
    Option Cache :=
  getFirst servers serverName

/-- server.js lines 165-169: `setServerCache(store, serverName, cache)`
(the persistence call is I/O and out of scope). -/
def setServerCache (servers : List (String × Cache)) (serverName : String)
    (cache : Cache) : List (String × Cache) :=
  upsert servers serverName cache

theorem mem_upsert {K V : Type} [DecidableEq K] {m : List (K × V)} {k : K}
    {v : V} {e : K × V} (h : e ∈ upsert m k v) : e ∈ m ∨ e.1 = k := by
  induction m with
  | nil =>
    simp [upsert] at h
    right
    rw [h]
  | cons x rest ih =>
    obtain ⟨a, b⟩ := x
    by_cases ha : a = k
    · simp only [upsert, if_pos ha] at h
      rcases List.mem_cons.mp h with rfl | hmem
      · right; exact ha
      · left; exact List.mem_cons_of_mem _ hmem
    · simp only [upsert, if_neg ha] at h
      rcases List.mem_cons.mp h with rfl | hmem
      · left; exact List.mem_cons_self _ _
      · rcases ih hmem with h1 | h2
        · left; exact List.mem_cons_of_mem _ h1
        · right; exact h2

/-- C10.  `normalizeServerName` always lands in the two-element allow-list:
it returns the allow-listed name matching the trimmed input
case-insensitively, and `'US Monthly (Premium)'` for nullish, empty, or
unrecognized input.  Consequently a cache write through `setServerCache`
keyed by a normalized name, and the store-wide removal update, both preserve
the invariant that every per-server cache key is one of the two allow-listed
names (cache reads via `getServerCache` are likewise keyed by
`normalizeServerName` output at every route call site). -/
theorem normalizeServerName_spec :
    (∀ s : Option String, normalizeServerName s ∈ ALLOWED_SERVERS) ∧
    (∀ s : Option String, truthy s = false →
      normalizeServerName s = "US Monthly (Premium)") ∧
    (∀ str : String, truthy (some str) = true →
      (jsToLower (jsTrim str) = jsToLower "US Monthly (Premium)" →
        normalizeServerName (some str) = "US Monthly (Premium)") ∧
      (jsToLower (jsTrim str) = jsToLower "US Biweekly (Premium)" →
        normalizeServerName (some str) = "US Biweekly (Premium)") ∧
      (jsToLower (jsTrim str) ≠ jsToLower "US Monthly (Premium)" ∧
        jsToLower (jsTrim str) ≠ jsToLower "US Biweekly (Premium)" →
        normalizeServerName (some str) = "US Monthly (Premium)")) ∧
    (∀ (servers : List (String × Cache)) (s : Option String) (cache : Cache),
      (∀ e ∈ servers, e.1 ∈ ALLOWED_SERVERS) →
      ∀ e ∈ setServerCache servers (normalizeServerName s) cache,
        e.1 ∈ ALLOWED_SERVERS) ∧
    (∀ (servers : List (String × Cache)) (player : Profile) (now : Nat),
      (∀ e ∈ servers, e.1 ∈ ALLOWED_SERVERS) →
      ∀ e ∈ removePlayerFromStore servers player now,
        e.1 ∈ ALLOWED_SERVERS) := by
  have hmem : ∀ s : Option String, normalizeServerName s ∈ ALLOWED_SERVERS := by
    intro s
    unfold normalizeServerName
    by_cases ht : truthy s = false
    · simp only [ht, if_pos rfl]
      show SERVER_NAME ∈ ALLOWED_SERVERS
      decide
    · have ht' : truthy s = true := by
        cases h : truthy s
        · exact absurd h ht
        · rfl
      rw [ht', if_neg (by simp)]
      show (match ALLOWED_SERVERS.find?
          (fun name => jsToLower name == jsToLower (jsTrim (s.getD ""))) with
        | some m => m | none => SERVER_NAME) ∈ ALLOWED_SERVERS
      cases hfind : ALLOWED_SERVERS.find?
          (fun name => jsToLower name == jsToLower (jsTrim (s.getD ""))) with
      | none => decide
      | some m => exact List.mem_of_find?_eq_some hfind
  refine ⟨hmem, ?_, ?_, ?_, ?_⟩
  · intro s hs
    unfold normalizeServerName
    rw [hs]
    rfl
  · intro str hstr
    have hne : jsToLower "US Monthly (Premium)" ≠ jsToLower "US Biweekly (Premium)" := by
      decide
    refine ⟨?_, ?_, ?_⟩
    · intro h
      unfold normalizeServerName
      rw [hstr, if_neg (by simp)]
      show (match ALLOWED_SERVERS.find?
          (fun name => jsToLower name == jsToLower (jsTrim str)) with
        | some m => m | none => SERVER_NAME) = _
      rw [show ALLOWED_SERVERS.find?
          (fun name => jsToLower name == jsToLower (jsTrim str)) =
          some "US Monthly (Premium)" from by
        unfold ALLOWED_SERVERS
        rw [List.find?_cons_of_pos _ (by simp [h])]]
    · intro h
      unfold normalizeServerName
      rw [hstr, if_neg (by simp)]
      show (match ALLOWED_SERVERS.find?
          (fun name => jsToLower name == jsToLower (jsTrim str)) with
        | some m => m | none => SERVER_NAME) = _
      rw [show ALLOWED_SERVERS.find?
          (fun name => jsToLower name == jsToLower (jsTrim str)) =
          some "US Biweekly (Premium)" from by
        unfold ALLOWED_SERVERS
        rw [List.find?_cons_of_neg _ (by simp [h ▸ hne]),
          List.find?_cons_of_pos _ (by simp [h])]]
    · intro ⟨h1, h2⟩
      unfold normalizeServerName
      rw [hstr, if_neg (by simp)]
      show (match ALLOWED_SERVERS.find?
          (fun name => jsToLower name == jsToLower (jsTrim str)) with
        | some m => m | none => SERVER_NAME) = _
      rw [show ALLOWED_SERVERS.find?
          (fun name => jsToLower name == jsToLower (jsTrim str)) = none from by
        unfold ALLOWED_SERVERS
        rw [List.find?_cons_of_neg _ (by simp; exact fun hc => h1 hc.symm),
          List.find?_cons_of_neg _ (by simp; exact fun hc => h2 hc.symm)]
        rfl]
      rfl
  · intro servers s cache hinv e he
    rcases mem_upsert he with hold | hnew
    · exact hinv e hold
    · rw [hnew]
      exact hmem s
  · intro servers player now hinv e he
    obtain ⟨x, hx, hxe⟩ := List.mem_map.mp he
    rw [← hxe]
    exact hinv x hx

/-- Witness for C10 at concrete inputs. -/
theorem normalizeServerName_spec_witness :
    normalizeServerName (some "  us biweekly (premium) ") =
        "US Biweekly (Premium)" ∧
    normalizeServerName none = "US Monthly (Premium)" ∧
    normalizeServerName (some "EU Weekly") = "US Monthly (Premium)" := by
  refine ⟨?_, ?_, ?_⟩
  · exact (normalizeServerName_spec.2.2.1 "  us biweekly (premium) "
      (by decide)).2.1 (by decide)
  · exact normalizeServerName_spec.2.1 none rfl
  · exact (normalizeServerName_spec.2.2.1 "EU Weekly" (by decide)).2.2
      (by constructor <;> decide)

/-- Does `pat` occur as a contiguous run inside `l` (JS `String.includes`)? -/
def hasSeq (pat : List Char) : List Char → Bool
  | [] => pat.isEmpty
  | x :: xs => (dropSeq pat (x :: xs)).isSome || hasSeq pat xs

/-- JS `s.includes(pat)`. -/
def includesStr (s pat : String) : Bool :=
  hasSeq pat.toList s.toList

/-- moose_scraper.js line 62. -/
def RETRY_BACKOFFS_MS : List Nat := [250, 500, 750]

/-- moose_scraper.js lines 64-67: `isRetryableDetachError` — errors are
modelled by their message string. -/
def isRetryableDetachError (message : String) : Bool :=
  includesStr message "not attached to the DOM" ||
    includesStr message "Target closed"

/-- JS `a || b` on numbers (`0` is falsy) with an optional first operand. -/
def jsNumOr (a : Option Nat) (b : Nat) : Nat :=
  match a with
  | some v => if v = 0 then b else v
  | none => b

/-- moose_scraper.js line 111:
`backoffs[attempt - 1] || backoffs[backoffs.length - 1] || 250`. -/
def backoffAt (backoffs : List Nat) (attempt : Nat) : Nat :=
  jsNumOr (backoffs.get? (attempt - 1))
    (jsNumOr (backoffs.get? (backoffs.length - 1)) 250)

/-- The observable outcome of one `withDetachRetry` run: final result, the
sequence of backoff delays awaited, and how many times the action ran. -/
structure RetryOutcome (A : Type) where
  result : Except String A
  delays : List Nat
  attemptsMade : Nat

/-- moose_scraper.js lines 104-117: the retry loop from a given attempt
number.  The action is indexed by the attempt on which it runs; an error is
its message string.  Entering the loop `attempt ≤ attempts` holds, so the
source's `attempt === attempts` test is `attempts ≤ attempt` here. -/
def withDetachRetryGo {A : Type} (action : Nat → Except String A)
    (attempts : Nat) (backoffs : List Nat) (attempt : Nat) : RetryOutcome A :=
  match action attempt with
  | .ok a => ⟨.ok a, [], 1⟩
  | .error e =>
    if isRetryableDetachError e = false ∨ attempts ≤ attempt then
      ⟨.error e, [], 1⟩
    else
      let rest := withDetachRetryGo action attempts backoffs (attempt + 1)
      ⟨rest.result, backoffAt backoffs attempt :: rest.delays,
        rest.attemptsMade + 1⟩
termination_by attempts - attempt
decreasing_by omega

/-- moose_scraper.js lines 96-118: `withDetachRetry(action, options)` with the
default options (`attempts = 3`, `backoffs = RETRY_BACKOFFS_MS`), starting at
attempt 1. -/
def withDetachRetry {A : Type} (action : Nat → Except String A)
    (attempts : Nat := 3) (backoffs : List Nat := RETRY_BACKOFFS_MS) :
    RetryOutcome A :=
  withDetachRetryGo action attempts backoffs 1

theorem go_ok {A : Type} (action : Nat → Except String A)
    (attempts : Nat) (backoffs : List Nat) (attempt : Nat) (a : A)
    (h : action attempt = .ok a) :
    withDetachRetryGo action attempts backoffs attempt = ⟨.ok a, [], 1⟩ := by
  rw [withDetachRetryGo, h]

theorem go_stop {A : Type} (action : Nat → Except String A)
    (attempts : Nat) (backoffs : List Nat) (attempt : Nat) (e : String)
    (h : action attempt = .error e)
    (hc : isRetryableDetachError e = false ∨ attempts ≤ attempt) :
    withDetachRetryGo action attempts backoffs attempt =
      ⟨.error e, [], 1⟩ := by
  rw [withDetachRetryGo, h]
  exact if_pos hc

theorem go_retry {A : Type} (action : Nat → Except String A)
    (attempts : Nat) (backoffs : List Nat) (attempt : Nat) (e : String)
    (h : action attempt = .error e) (hr : isRetryableDetachError e = true)
    (hlt : attempt < attempts) :
    withDetachRetryGo action attempts backoffs attempt =
      ⟨(withDetachRetryGo action attempts backoffs (attempt + 1)).result,
        backoffAt backoffs attempt ::
          (withDetachRetryGo action attempts backoffs (attempt + 1)).delays,
        (withDetachRetryGo action attempts backoffs (attempt + 1)).attemptsMade
          + 1⟩ := by
  rw [withDetachRetryGo, h]
  exact if_neg (by simp [hr]; omega)

theorem go_attemptsMade_le {A : Type}
    (action : Nat → Except String A) (attempts : Nat) (backoffs : List Nat)
    (attempt : Nat) :
    (withDetachRetryGo action attempts backoffs attempt).attemptsMade ≤
      attempts - attempt + 1 := by
  cases hact : action attempt with
  | ok a =>
    rw [go_ok action attempts backoffs attempt a hact]
    simp
  | error e =>
    by_cases hcond : isRetryableDetachError e = false ∨ attempts ≤ attempt
    · rw [go_stop action attempts backoffs attempt e hact hcond]
      simp
    · have hr : isRetryableDetachError e = true := by
        cases h : isRetryableDetachError e
        · exact absurd (Or.inl h) hcond
        · rfl
      have hlt : attempt < attempts := by omega
      rw [go_retry action attempts backoffs attempt e hact hr hlt]
      have := go_attemptsMade_le action attempts backoffs (attempt + 1)
      show (withDetachRetryGo action attempts backoffs (attempt + 1)).attemptsMade
        + 1 ≤ attempts - attempt + 1
      omega
termination_by attempts - attempt
decreasing_by omega

set_option linter.unusedVariables false in
/-- C7.  Under the retry envelope with the default options: a transient error
(message indicating DOM detachment or a closed target) on attempts 1 and 2
followed by success on attempt 3 yields overall success with attempt 3's
result after backoffs of 250 ms then 500 ms; a transient error on all three
attempts propagates the final error after the same two backoffs and no
further retry; a non-transient error on attempt 1 (or on attempt 2 after one
transient failure) propagates immediately with no further attempts; the
envelope never makes more than 3 attempts; and the backoff schedule is
250, 500, 750, holding at 750 for any later attempt. -/
theorem withDetachRetry_spec {A : Type} (e1 e2 e3 en : String) (v : A)
    (h1 : isRetryableDetachError e1 = true)
    (h2 : isRetryableDetachError e2 = true)
    (h3 : isRetryableDetachError e3 = true)
    (hn : isRetryableDetachError en = false) :
    (withDetachRetry (fun n =>
        if n = 1 then .error e1 else if n = 2 then .error e2 else .ok v) =
      ⟨.ok v, [250, 500], 3⟩) ∧
    (withDetachRetry (A := A) (fun n =>
        if n = 1 then .error e1 else if n = 2 then .error e2 else .error e3) =
      ⟨.error e3, [250, 500], 3⟩) ∧
    (withDetachRetry (A := A) (fun _ => .error en) = ⟨.error en, [], 1⟩) ∧
    (withDetachRetry (A := A) (fun n => if n = 1 then .error e1 else .error en) =
      ⟨.error en, [250], 2⟩) ∧
    (∀ action : Nat → Except String A,
      (withDetachRetry action).attemptsMade ≤ 3) ∧
    (backoffAt RETRY_BACKOFFS_MS 1 = 250 ∧ backoffAt RETRY_BACKOFFS_MS 2 = 500 ∧
      backoffAt RETRY_BACKOFFS_MS 3 = 750 ∧ backoffAt RETRY_BACKOFFS_MS 4 = 750 ∧
      backoffAt RETRY_BACKOFFS_MS 9 = 750) := by
  refine ⟨?_, ?_, ?_, ?_, ?_, ?_⟩
  · show withDetachRetryGo (fun n =>
        if n = 1 then .error e1 else if n = 2 then .error e2 else .ok v)
        3 RETRY_BACKOFFS_MS 1 = _
    have s3 : withDetachRetryGo (fun n =>
        if n = 1 then .error e1 else if n = 2 then .error e2 else .ok v)
        3 RETRY_BACKOFFS_MS 3 = ⟨.ok v, [], 1⟩ :=
      go_ok _ 3 RETRY_BACKOFFS_MS 3 v rfl
    have s2 : withDetachRetryGo (fun n =>
        if n = 1 then .error e1 else if n = 2 then .error e2 else .ok v)
        3 RETRY_BACKOFFS_MS 2 = ⟨.ok v, [500], 2⟩ := by
      rw [go_retry _ 3 RETRY_BACKOFFS_MS 2 e2 rfl h2 (by omega)]
      have s3' : withDetachRetryGo (fun n =>
          if n = 1 then .error e1 else if n = 2 then .error e2 else .ok v)
          3 RETRY_BACKOFFS_MS (2 + 1) = ⟨.ok v, [], 1⟩ := s3
      rw [s3']
      rfl
    rw [go_retry _ 3 RETRY_BACKOFFS_MS 1 e1 rfl h1 (by omega)]
    have s2' : withDetachRetryGo (fun n =>
        if n = 1 then .error e1 else if n = 2 then .error e2 else .ok v)
        3 RETRY_BACKOFFS_MS (1 + 1) = ⟨.ok v, [500], 2⟩ := s2
    rw [s2']
    rfl
  · show withDetachRetryGo (fun n =>
        if n = 1 then .error e1 else if n = 2 then .error e2 else .error e3)
        3 RETRY_BACKOFFS_MS 1 = _
    have s3 : withDetachRetryGo (A := A) (fun n =>
        if n = 1 then .error e1 else if n = 2 then .error e2 else .error e3)
        3 RETRY_BACKOFFS_MS 3 = ⟨.error e3, [], 1⟩ :=
      go_stop _ 3 RETRY_BACKOFFS_MS 3 e3 rfl (Or.inr (by omega))
    have s2 : withDetachRetryGo (A := A) (fun n =>
        if n = 1 then .error e1 else if n = 2 then .error e2 else .error e3)
        3 RETRY_BACKOFFS_MS 2 = ⟨.error e3, [500], 2⟩ := by
      rw [go_retry _ 3 RETRY_BACKOFFS_MS 2 e2 rfl h2 (by omega)]
      have s3' : withDetachRetryGo (A := A) (fun n =>
          if n = 1 then .error e1 else if n = 2 then .error e2 else .error e3)
          3 RETRY_BACKOFFS_MS (2 + 1) = ⟨.error e3, [], 1⟩ := s3
      rw [s3']
      rfl
    rw [go_retry _ 3 RETRY_BACKOFFS_MS 1 e1 rfl h1 (by omega)]
    have s2' : withDetachRetryGo (A := A) (fun n =>
        if n = 1 then .error e1 else if n = 2 then .error e2 else .error e3)
        3 RETRY_BACKOFFS_MS (1 + 1) = ⟨.error e3, [500], 2⟩ := s2
    rw [s2']
    rfl
  · exact go_stop (A := A) _ 3 RETRY_BACKOFFS_MS 1 en rfl (Or.inl hn)
  · show withDetachRetryGo (A := A)
        (fun n => if n = 1 then .error e1 else .error en)
        3 RETRY_BACKOFFS_MS 1 = _
    rw [go_retry _ 3 RETRY_BACKOFFS_MS 1 e1 rfl h1 (by omega)]
    have s2' : withDetachRetryGo (A := A)
        (fun n => if n = 1 then .error e1 else .error en)
        3 RETRY_BACKOFFS_MS (1 + 1) = ⟨.error en, [], 1⟩ :=
      go_stop _ 3 RETRY_BACKOFFS_MS 2 en rfl (Or.inl hn)
    rw [s2']
    rfl
  · intro action
    have := go_attemptsMade_le action 3 RETRY_BACKOFFS_MS 1
    show (withDetachRetryGo action 3 RETRY_BACKOFFS_MS 1).attemptsMade ≤ 3
    omega
  · exact ⟨rfl, rfl, rfl, rfl, rfl⟩

/-- Witness for C7 with concrete transient and non-transient messages. -/
theorem withDetachRetry_spec_witness :
    isRetryableDetachError "element is not attached to the DOM" = true ∧
    isRetryableDetachError "Target closed" = true ∧
    isRetryableDetachError "net::ERR_TIMED_OUT" = false ∧
    withDetachRetry (fun n =>
      if n = 1 then .error "element is not attached to the DOM"
      else if n = 2 then .error "Target closed" else .ok (7 : Nat)) =
      ⟨.ok 7, [250, 500], 3⟩ := by
  refine ⟨by decide, by decide, by decide, ?_⟩
  exact (withDetachRetry_spec "element is not attached to the DOM"
    "Target closed" "Target closed" "net::ERR_TIMED_OUT" (7 : Nat)
    (by decide) (by decide) (by decide) (by decide)).1

/-- moose_scraper.js line 564: strip every character outside `[0-9.]`.
JS doubles are embedded as exact rationals; every value the scraper reads is
a short decimal numeral, for which double and rational arithmetic agree. -/
def sanitizeNum (s : String) : String :=
  String.mk (s.toList.filter (fun c => c.isDigit || c = '.'))

/-- Decimal digit run to a natural number. -/
def digitsToNat (l : List Char) : Nat :=
  l.foldl (fun n c => n * 10 + (c.toNat - 48)) 0

/-- JS `Number()` of a non-empty digits-and-dots string; `none` is `NaN`
(more than one dot, or a lone dot). -/
def parseJsNumber (s : String) : JsNum :=
  match splitChar '.' s.toList with
  | [intPart] => some (digitsToNat intPart)
  | [intPart, fracPart] =>
    if intPart.isEmpty && fracPart.isEmpty then none
    else some ((digitsToNat intPart : ℚ) +
      (digitsToNat fracPart : ℚ) / (10 ^ fracPart.length))
  | _ => none

/-- moose_scraper.js lines 561-566: `getNumeric` — sanitize the cell text,
`Number(numeric || 0)`. -/
def getNumericOf (text : String) : JsNum :=
  let numeric := sanitizeNum text
  if numeric.isEmpty then some 0 else parseJsNumber numeric

/-- moose_scraper.js lines 568-597: `getTooltipNumber` — the first popover
text whose sanitized form is non-empty, parsed; null when none appears.  The
popover texts the page shows for a metric label are an oracle argument. -/
def getTooltipNumber (vals : List String) : Option JsNum :=
  match vals.find? (fun v => !(sanitizeNum v).isEmpty) with
  | some v => some (parseJsNumber (sanitizeNum v))
  | none => none

/-- moose_scraper.js lines 599-616: `getCol(label)` over a column map, a cell
text oracle (indexed by column) and a tooltip oracle (indexed by label). -/
def getCol (columnMap : List (String × Nat)) (cellText : Nat → String)
    (tooltipVals : String → List String) (label : String) : JsNum :=
  match getFirst columnMap label with
  | none =>
    if label = "Headshot %" then
      match getFirst columnMap "Headshots" with
      | some _ =>
        match getTooltipNumber (tooltipVals label) with
        | some t => t
        | none => some 0
      | none => some 0
    else some 0
  | some idx =>
    if label = "Headshot %" then
      match getTooltipNumber (tooltipVals label) with
      | some t => t
      | none => getNumericOf (cellText idx)
    else getNumericOf (cellText idx)

/-- moose_scraper.js line 618: the labels iterated — `metricLabels` when
non-empty, else the column map's keys. -/
def extractLabels (columnMap : List (String × Nat))
    (metricLabels : List String) : List String :=
  if metricLabels.isEmpty then columnMap.map Prod.fst else metricLabels

/-- moose_scraper.js lines 619-622: the stats record before the post-pass
recomputation. -/
def rawStatsOf (columnMap : List (String × Nat)) (cellText : Nat → String)
    (tooltipVals : String → List String) (metricLabels : List String) :
    StatLine :=
  (extractLabels columnMap metricLabels).foldl
    (fun acc label =>
      upsert acc label (getCol columnMap cellText tooltipVals label)) []

/-- JS `stats['Shots Hit'] > 0` (false for absent or NaN). -/
def shotsHitPos (stats : StatLine) : Bool :=
  match getFirst stats "Shots Hit" with
  | some (some v) => decide (0 < v)
  | _ => false

/-- JS `stats.Headshots >= 0` (false for absent or NaN). -/
def headshotsNonneg (stats : StatLine) : Bool :=
  match getFirst stats "Headshots" with
  | some (some v) => decide (0 ≤ v)
  | _ => false

/-- `Number(x.toFixed(2))`: round to 2 decimal places, ties toward the larger
value (ECMA toFixed picks the larger n on ties). -/
def round2 (q : ℚ) : ℚ :=
  (⌊q * 100 + 1 / 2⌋ : ℚ) / 100

/-- moose_scraper.js lines 618-626: `extractStatsFromRow` — the raw per-label
reads followed by the Headshot % recomputation, which overrides any UI or
tooltip value whenever `Shots Hit > 0` and `Headshots ≥ 0`. -/
def extractStatsFromRow (columnMap : List (String × Nat))
    (cellText : Nat → String) (tooltipVals : String → List String)
    (metricLabels : List String) : StatLine :=
  let labels := extractLabels columnMap metricLabels
  let stats := rawStatsOf columnMap cellText tooltipVals metricLabels
  if labels.contains "Headshot %" && shotsHitPos stats &&
      headshotsNonneg stats then
    match getFirst stats "Shots Hit", getFirst stats "Headshots" with
    | some (some sh), some (some hs) =>
      upsert stats "Headshot %" (some (round2 (hs / sh * 100)))
    | _, _ => stats
  else stats

/-- C8.  For every extracted stats record that includes the `Headshot %`
metric: when the extracted `Shots Hit` value is a number greater than 0 (and
`Headshots` was extracted as a number, necessarily ≥ 0), the final
`Headshot %` equals `Headshots / Shots Hit * 100` rounded to 2 decimal
places, overriding any value read from a cell or tooltip; when `Shots Hit` is
0, absent, or not a number, the previously read record stands unchanged. -/
theorem headshot_recompute (columnMap : List (String × Nat))
    (cellText : Nat → String) (tooltipVals : String → List String)
    (metricLabels : List String)
    (hinc : (extractLabels columnMap metricLabels).contains "Headshot %" = true) :
    (∀ sh hs : ℚ,
      getFirst (rawStatsOf columnMap cellText tooltipVals metricLabels)
          "Shots Hit" = some (some sh) →
      0 < sh →
      getFirst (rawStatsOf columnMap cellText tooltipVals metricLabels)
          "Headshots" = some (some hs) →
      0 ≤ hs →
      getFirst (extractStatsFromRow columnMap cellText tooltipVals
          metricLabels) "Headshot %" = some (some (round2 (hs / sh * 100)))) ∧
    (shotsHitPos (rawStatsOf columnMap cellText tooltipVals metricLabels)
        = false →
      extractStatsFromRow columnMap cellText tooltipVals metricLabels =
        rawStatsOf columnMap cellText tooltipVals metricLabels) := by
  constructor
  · intro sh hs hsh hpos hhs hge
    have hA : shotsHitPos (rawStatsOf columnMap cellText tooltipVals
        metricLabels) = true := by
      unfold shotsHitPos
      rw [hsh]
      simpa using hpos
    have hB : headshotsNonneg (rawStatsOf columnMap cellText tooltipVals
        metricLabels) = true := by
      unfold headshotsNonneg
      rw [hhs]
      simpa using hge
    show getFirst
      (if ((extractLabels columnMap metricLabels).contains "Headshot %" &&
          shotsHitPos (rawStatsOf columnMap cellText tooltipVals metricLabels) &&
          headshotsNonneg (rawStatsOf columnMap cellText tooltipVals
            metricLabels)) = true then
        match getFirst (rawStatsOf columnMap cellText tooltipVals metricLabels)
            "Shots Hit",
          getFirst (rawStatsOf columnMap cellText tooltipVals metricLabels)
            "Headshots" with
        | some (some sh), some (some hs) =>
          upsert (rawStatsOf columnMap cellText tooltipVals metricLabels)
            "Headshot %" (some (round2 (hs / sh * 100)))
        | _, _ => rawStatsOf columnMap cellText tooltipVals metricLabels
      else rawStatsOf columnMap cellText tooltipVals metricLabels)
      "Headshot %" = some (some (round2 (hs / sh * 100)))
    rw [hinc, hA, hB]
    rw [if_pos (show ((true && true && true) = true) from rfl)]
    rw [hsh, hhs]
    show getFirst (upsert (rawStatsOf columnMap cellText tooltipVals
      metricLabels) "Headshot %" (some (round2 (hs / sh * 100)))) "Headshot %"
      = some (some (round2 (hs / sh * 100)))
    rw [getFirst_upsert]
    simp
  · intro hzero
    show (if ((extractLabels columnMap metricLabels).contains "Headshot %" &&
        shotsHitPos (rawStatsOf columnMap cellText tooltipVals metricLabels) &&
        headshotsNonneg (rawStatsOf columnMap cellText tooltipVals
          metricLabels)) = true then
      match getFirst (rawStatsOf columnMap cellText tooltipVals metricLabels)
          "Shots Hit",
        getFirst (rawStatsOf columnMap cellText tooltipVals metricLabels)
          "Headshots" with
      | some (some sh), some (some hs) =>
        upsert (rawStatsOf columnMap cellText tooltipVals metricLabels)
          "Headshot %" (some (round2 (hs / sh * 100)))
      | _, _ => rawStatsOf columnMap cellText tooltipVals metricLabels
    else rawStatsOf columnMap cellText tooltipVals metricLabels)
      = rawStatsOf columnMap cellText tooltipVals metricLabels
    rw [hzero]
    simp

/-- Witness for C8: `Shots Hit = 200`, `Headshots = 50` yield exactly 25.00
even though the tooltip showed 99, and a record whose `Shots Hit` is 0 stands
unchanged. -/
theorem headshot_recompute_witness :
    let columnMap : List (String × Nat) :=
      [("Shots Hit", 0), ("Headshots", 1), ("Headshot %", 2)]
    let cellText : Nat → String :=
      fun i => if i = 0 then "200" else if i = 1 then "50" else "99"
    let tooltipVals : String → List String := fun _ => ["99"]
    let labels : List String := ["Shots Hit", "Headshots", "Headshot %"]
    getFirst (extractStatsFromRow columnMap cellText tooltipVals labels)
        "Headshot %" = some (some 25) ∧
    round2 (50 / 200 * 100) = 25 ∧
    (let zeroCells : Nat → String := fun i => if i = 0 then "0" else "50"
     extractStatsFromRow columnMap zeroCells tooltipVals labels =
       rawStatsOf columnMap zeroCells tooltipVals labels) := by
  intro columnMap cellText tooltipVals labels
  have hval : round2 ((50 : ℚ) / 200 * 100) = 25 := by
    unfold round2
    rw [show ((50 : ℚ) / 200 * 100 * 100 + 1 / 2) = 2500 + 1 / 2 from by
      norm_num]
    rw [show ⌊(2500 + 1 / 2 : ℚ)⌋ = 2500 from by
      rw [Int.floor_eq_iff]
      constructor <;> norm_num]
    norm_num
  refine ⟨?_, hval, ?_⟩
  · have h := (headshot_recompute columnMap cellText tooltipVals labels
      (by decide)).1 200 50 (by decide) (by norm_num) (by decide) (by norm_num)
    rw [h, hval]
  · exact (headshot_recompute columnMap
      (fun i => if i = 0 then "0" else "50")
      tooltipVals labels (by decide)).2 (by decide)

/-- moose_scraper.js lines 43-49: the tab keys in `TAB_DEFS` order. -/
def TAB_KEYS : List String := ["pvp", "pve", "resources", "farming", "building"]

/-- moose_scraper.js line 739: the tabs scraped this pass, in `TAB_DEFS`
order, restricted by the caller's tab selection. -/
def tabEntries (included : String → Bool) : List String :=
  TAB_KEYS.filter included

/-- The stats key for a player: `profile.displayName || profile.fallbackName`
(an undefined key coerces to the string "undefined" as a JS property name). -/
def labelOf (p : Profile) : String :=
  (jsOr p.displayName p.fallbackName).getD "undefined"

/-- moose_scraper.js lines 795-800 and 822-827: the missing entry pushed for
a player whose row lookup failed on the pvp tab. -/
def mkMissingEntry (p : Profile) (msg : String) : MissingEntry :=
  { label := jsOr p.displayName p.fallbackName
    steamId := p.steamId
    steamUrl := p.steamUrl
    reason := if msg.isEmpty then "Missing player stats" else msg }

/-- JS `array.entries()`: pair each element with its index, from `n`. -/
def withIndicesFrom {α : Type} (n : Nat) : List α → List (Nat × α)
  | [] => []
  | a :: t => (n, a) :: withIndicesFrom (n + 1) t

/-- JS `array.entries()` from index 0. -/
def withIndices {α : Type} (l : List α) : List (Nat × α) :=
  withIndicesFrom 0 l

/-- The mutable scrape-pass state: the tab cache keys, the `tabs` result
object, the `missing` list, and the `missingIndexes` set (membership only). -/
structure PassState where
  tabsDone : List String := []
  tabs : List (String × Tab) := []
  missing : List MissingEntry := []
  missingIdx : List Nat := []

/-- moose_scraper.js lines 748-776: `ensureTabReady` — on first visit select
the tab, resolve its column map and metrics (the setup oracle), and install
an empty stats record for it. -/
def ensureTabReady (setup : String → (List (String × Nat) × List String))
    (st : PassState) (k : String) : PassState :=
  if st.tabsDone.contains k then st
  else
    { st with
      tabsDone := k :: st.tabsDone
      tabs := upsert st.tabs k
        { metrics := (setup k).2, stats := [], columnMap := (setup k).1 } }

/-- `missingIndexes.add(i)`. -/
def addMissingIdx (i : Nat) (s : List Nat) : List Nat :=
  if s.contains i then s else i :: s

/-- JS `tabs[k].stats[label] = v`: update the stats of the first `k` tab. -/
def modifyTabStats (tabs : List (String × Tab)) (k label : String)
    (v : StatLine) : List (String × Tab) :=
  match tabs with
  | [] => []
  | (k', td) :: rest =>
    if k' = k then (k', { td with stats := upsert td.stats label v }) :: rest
    else (k', td) :: modifyTabStats rest k label v

/-- moose_scraper.js lines 781-804: one (player, tab) iteration of the
perPlayer strategy.  The row-lookup/extraction outcome for a (player index,
tab key) pair is the oracle `oracle`. -/
def perPlayerStep (oracle : Nat → String → Except String StatLine)
    (setup : String → (List (String × Nat) × List String)) (scrapePvp : Bool)
    (ip : Nat × Profile) (st : PassState) (k : String) : PassState :=
  if scrapePvp && st.missingIdx.contains ip.1 && decide (k ≠ "pvp") then st
  else
    let st := ensureTabReady setup st k
    match oracle ip.1 k with
    | .ok stats => { st with tabs := modifyTabStats st.tabs k (labelOf ip.2) stats }
    | .error msg =>
      if k = "pvp" then
        { st with
          missingIdx := addMissingIdx ip.1 st.missingIdx
          missing := st.missing ++ [mkMissingEntry ip.2 msg] }
      else st

/-- moose_scraper.js lines 778-806: the perPlayer traversal. -/
def perPlayerPass (profiles : List Profile) (included : String → Bool)
    (oracle : Nat → String → Except String StatLine)
    (setup : String → (List (String × Nat) × List String)) : PassState :=
  let entries := tabEntries included
  let scrapePvp := entries.contains "pvp"
  (withIndices profiles).foldl
    (fun st ip => entries.foldl (perPlayerStep oracle setup scrapePvp ip) st)
    {}

/-- moose_scraper.js lines 813-832: one player iteration of the perTab inner
loop, accumulating (stats object, missing, missingIndexes). -/
def perTabInner (oracle : Nat → String → Except String StatLine)
    (scrapePvp : Bool) (k : String)
    (acc : List (String × StatLine) × List MissingEntry × List Nat)
    (ip : Nat × Profile) :
    List (String × StatLine) × List MissingEntry × List Nat :=
  if scrapePvp && acc.2.2.contains ip.1 && decide (k ≠ "pvp") then acc
  else
    match oracle ip.1 k with
    | .ok v => (upsert acc.1 (labelOf ip.2) v, acc.2.1, acc.2.2)
    | .error msg =>
      if k = "pvp" then
        (acc.1, acc.2.1 ++ [mkMissingEntry ip.2 msg], addMissingIdx ip.1 acc.2.2)
      else acc

/-- moose_scraper.js lines 808-833: one tab iteration of the perTab
strategy: prepare the tab, scrape every player into a fresh stats object,
then install the tab result. -/
def perTabStep (profiles : List Profile)
    (oracle : Nat → String → Except String StatLine)
    (setup : String → (List (String × Nat) × List String)) (scrapePvp : Bool)
    (st : PassState) (k : String) : PassState :=
  let st' := ensureTabReady setup st k
  let res := (withIndices profiles).foldl (perTabInner oracle scrapePvp k)
    ([], st'.missing, st'.missingIdx)
  { st' with
    tabs := upsert st'.tabs k
      { metrics := (setup k).2, stats := res.1, columnMap := (setup k).1 }
    missing := res.2.1
    missingIdx := res.2.2 }

/-- moose_scraper.js lines 807-835: the perTab traversal. -/
def perTabPass (profiles : List Profile) (included : String → Bool)
    (oracle : Nat → String → Except String StatLine)
    (setup : String → (List (String × Nat) × List String)) : PassState :=
  let entries := tabEntries included
  let scrapePvp := entries.contains "pvp"
  entries.foldl (perTabStep profiles oracle setup scrapePvp) {}

/-- The missing entry contributed by one roster slot: present exactly when
its pvp row lookup fails. -/
def pvpMissOf (oracle : Nat → String → Except String StatLine)
    (ip : Nat × Profile) : Option MissingEntry :=
  match oracle ip.1 "pvp" with
  | .error msg => some (mkMissingEntry ip.2 msg)
  | .ok _ => none

/-- The missing entries a pass is expected to record: one per player whose
pvp row lookup fails, in roster order. -/
def expectedMissing (profiles : List Profile)
    (oracle : Nat → String → Except String StatLine) : List MissingEntry :=
  (withIndices profiles).filterMap (pvpMissOf oracle)

/-- Does a missing entry carry this profile's label field? -/
def labelMatches (p : Profile) (m : MissingEntry) : Bool :=
  decide (m.label = jsOr p.displayName p.fallbackName)

theorem withIndicesFrom_getElem? {α : Type} {l : List α} {n : Nat}
    {jq : Nat × α} (h : jq ∈ withIndicesFrom n l) :
    n ≤ jq.1 ∧ l[jq.1 - n]? = some jq.2 := by
  induction l generalizing n with
  | nil => cases h
  | cons a t ih =>
    rcases List.mem_cons.mp h with rfl | hmem
    · exact ⟨Nat.le_refl _, by simp⟩
    · obtain ⟨h1, h2⟩ := ih hmem
      refine ⟨by omega, ?_⟩
      have hidx : jq.1 - n = (jq.1 - (n + 1)) + 1 := by omega
      rw [hidx]
      simpa using h2

theorem withIndicesFrom_countP {α : Type} (l : List α) (n j : Nat) :
    (withIndicesFrom n l).countP (fun jq => decide (jq.1 = j)) =
      if n ≤ j ∧ j < n + l.length then 1 else 0 := by
  induction l generalizing n with
  | nil =>
    show (0 : Nat) = _
    rw [if_neg (by simp)]
  | cons a t ih =>
    show List.countP _ ((n, a) :: withIndicesFrom (n + 1) t) = _
    rw [List.countP_cons, ih (n + 1)]
    by_cases hj : n = j
    · subst hj
      rw [if_neg (by omega), if_pos (by simp), if_pos]
      refine ⟨Nat.le_refl _, ?_⟩
      simp only [List.length_cons]
      omega
    · have hd : ¬((decide ((n, a).1 = j)) = true) := by simp [hj]
      rw [if_neg hd]
      by_cases hin : n + 1 ≤ j ∧ j < n + 1 + t.length
      · rw [if_pos hin, if_pos (by simp only [List.length_cons]; omega)]
      · rw [if_neg hin, if_neg (by simp only [List.length_cons]; omega)]

theorem labelOf_eq_of_field {q p : Profile}
    (h : jsOr q.displayName q.fallbackName = jsOr p.displayName p.fallbackName) :
    labelOf q = labelOf p := by
  unfold labelOf
  rw [h]

theorem filter_pvpMiss_nil (oracle' : Nat → String → Except String StatLine)
    (i : Nat) (p : Profile) (ps : List (Nat × Profile))
    (hne : ∀ jq ∈ ps, jq.1 ≠ i → labelOf jq.2 ≠ labelOf p)
    (hok : ∀ jq ∈ ps, jq.1 = i → pvpMissOf oracle' jq = none) :
    (ps.filterMap (pvpMissOf oracle')).filter (labelMatches p) = [] := by
  induction ps with
  | nil => rfl
  | cons jq t ih =>
    have hne' : ∀ x ∈ t, x.1 ≠ i → labelOf x.2 ≠ labelOf p :=
      fun x hx => hne x (List.mem_cons_of_mem _ hx)
    have hok' : ∀ x ∈ t, x.1 = i → pvpMissOf oracle' x = none :=
      fun x hx => hok x (List.mem_cons_of_mem _ hx)
    by_cases hji : jq.1 = i
    · rw [List.filterMap_cons, hok jq (List.mem_cons_self _ _) hji]
      exact ih hne' hok'
    · cases ho : oracle' jq.1 "pvp" with
      | ok v =>
        have hn : pvpMissOf oracle' jq = none := by unfold pvpMissOf; rw [ho]
        rw [List.filterMap_cons, hn]
        exact ih hne' hok'
      | error m =>
        have hs : pvpMissOf oracle' jq = some (mkMissingEntry jq.2 m) := by
          unfold pvpMissOf; rw [ho]
        rw [List.filterMap_cons, hs]
        have hflt : labelMatches p (mkMissingEntry jq.2 m) = false := by
          show decide (jsOr jq.2.displayName jq.2.fallbackName =
            jsOr p.displayName p.fallbackName) = false
          rw [decide_eq_false_iff_not]
          intro heq
          exact hne jq (List.mem_cons_self _ _) hji (labelOf_eq_of_field heq)
        rw [List.filter_cons, hflt, if_neg (by simp)]
        exact ih hne' hok'

theorem filter_pvpMiss_single (oracle' : Nat → String → Except String StatLine)
    (i : Nat) (p : Profile) (msg : String)
    (herr : oracle' i "pvp" = .error msg) :
    ∀ ps : List (Nat × Profile),
    ps.countP (fun jq => decide (jq.1 = i)) = 1 →
    (∀ jq ∈ ps, jq.1 = i → jq.2 = p) →
    (∀ jq ∈ ps, jq.1 ≠ i → labelOf jq.2 ≠ labelOf p) →
    (ps.filterMap (pvpMissOf oracle')).filter (labelMatches p) =
      [mkMissingEntry p msg] := by
  intro ps
  induction ps with
  | nil => intro hc _ _; simp at hc
  | cons jq t ih =>
    intro hc hval hne
    rw [List.countP_cons] at hc
    have hval' : ∀ x ∈ t, x.1 = i → x.2 = p :=
      fun x hx => hval x (List.mem_cons_of_mem _ hx)
    have hne' : ∀ x ∈ t, x.1 ≠ i → labelOf x.2 ≠ labelOf p :=
      fun x hx => hne x (List.mem_cons_of_mem _ hx)
    by_cases hji : jq.1 = i
    · have hq : jq.2 = p := hval jq (List.mem_cons_self _ _) hji
      have hs : pvpMissOf oracle' jq = some (mkMissingEntry p msg) := by
        unfold pvpMissOf; rw [hq, hji, herr]
      rw [List.filterMap_cons, hs]
      have hflt : labelMatches p (mkMissingEntry p msg) = true := by
        show decide (jsOr p.displayName p.fallbackName =
          jsOr p.displayName p.fallbackName) = true
        simp
      rw [List.filter_cons, hflt, if_pos rfl]
      rw [if_pos (by simp [hji])] at hc
      have hzero : t.countP (fun jq => decide (jq.1 = i)) = 0 := by omega
      have hnone : ∀ x ∈ t, x.1 ≠ i := by
        intro x hx
        have hx0 := List.countP_eq_zero.mp hzero x hx
        simpa using hx0
      rw [filter_pvpMiss_nil oracle' i p t hne'
        (fun x hx hxi => absurd hxi (hnone x hx))]
    · rw [if_neg (by simp [hji])] at hc
      have hc' : t.countP (fun jq => decide (jq.1 = i)) = 1 := by omega
      cases ho : oracle' jq.1 "pvp" with
      | ok v =>
        have hn : pvpMissOf oracle' jq = none := by unfold pvpMissOf; rw [ho]
        rw [List.filterMap_cons, hn]
        exact ih hc' hval' hne'
      | error m =>
        have hs : pvpMissOf oracle' jq = some (mkMissingEntry jq.2 m) := by
          unfold pvpMissOf; rw [ho]
        rw [List.filterMap_cons, hs]
        have hflt : labelMatches p (mkMissingEntry jq.2 m) = false := by
          show decide (jsOr jq.2.displayName jq.2.fallbackName =
            jsOr p.displayName p.fallbackName) = false
          rw [decide_eq_false_iff_not]
          intro heq
          exact hne jq (List.mem_cons_self _ _) hji (labelOf_eq_of_field heq)
        rw [List.filter_cons, hflt, if_neg (by simp)]
        exact ih hc' hval' hne'

theorem mem_withIndices_of_getElem? {α : Type} {l : List α} {i : Nat} {a : α}
    (h : l[i]? = some a) : (i, a) ∈ withIndices l := by
  suffices H : ∀ (l : List α) (n i : Nat) (a : α), l[i]? = some a →
      (n + i, a) ∈ withIndicesFrom n l by
    have := H l 0 i a h
    simpa [withIndices] using this
  intro l
  induction l with
  | nil => intro n i a h; simp at h
  | cons x t ih =>
    intro n i a h
    cases i with
    | zero =>
      simp at h
      subst h
      exact List.mem_cons_self _ _
    | succ i' =>
      simp at h
      have hmem := ih (n + 1) i' a h
      refine List.mem_cons_of_mem _ ?_
      have heq : n + 1 + i' = n + (i' + 1) := by omega
      rw [heq] at hmem
      exact hmem

theorem contains_of_mem {n : Nat} {s : List Nat} (h : n ∈ s) :
    s.contains n = true := by
  simpa using h

theorem mem_addMissingIdx_self (n : Nat) (s : List Nat) :
    n ∈ addMissingIdx n s := by
  unfold addMissingIdx
  by_cases h : s.contains n = true
  · rw [if_pos h]
    simpa using h
  · rw [if_neg h]
    exact List.mem_cons_self _ _

theorem mem_addMissingIdx_of_mem {n : Nat} {s : List Nat} (j : Nat)
    (h : n ∈ s) : n ∈ addMissingIdx j s := by
  unfold addMissingIdx
  by_cases hc : s.contains j = true
  · rw [if_pos hc]
    exact h
  · rw [if_neg hc]
    exact List.mem_cons_of_mem _ h

theorem perTabInner_pvp_ok {oracle : Nat → String → Except String StatLine}
    {sp : Bool} {acc : List (String × StatLine) × List MissingEntry × List Nat}
    {jq : Nat × Profile} {v : StatLine} (ho : oracle jq.1 "pvp" = .ok v) :
    perTabInner oracle sp "pvp" acc jq =
      (upsert acc.1 (labelOf jq.2) v, acc.2.1, acc.2.2) := by
  unfold perTabInner
  rw [if_neg (by simp), ho]

theorem perTabInner_pvp_err {oracle : Nat → String → Except String StatLine}
    {sp : Bool} {acc : List (String × StatLine) × List MissingEntry × List Nat}
    {jq : Nat × Profile} {m : String} (ho : oracle jq.1 "pvp" = .error m) :
    perTabInner oracle sp "pvp" acc jq =
      (acc.1, acc.2.1 ++ [mkMissingEntry jq.2 m],
        addMissingIdx jq.1 acc.2.2) := by
  unfold perTabInner
  rw [if_neg (by simp)]
  simp only [ho]
  rw [if_pos trivial]

theorem perTabInner_pvp_fold (oracle : Nat → String → Except String StatLine)
    (sp : Bool) :
    ∀ (ps : List (Nat × Profile))
      (acc : List (String × StatLine) × List MissingEntry × List Nat),
    (ps.foldl (perTabInner oracle sp "pvp") acc).2.1 =
        acc.2.1 ++ ps.filterMap (pvpMissOf oracle) ∧
    (∀ n, n ∈ acc.2.2 →
        n ∈ (ps.foldl (perTabInner oracle sp "pvp") acc).2.2) ∧
    (∀ jq ∈ ps, ∀ m, oracle jq.1 "pvp" = .error m →
        jq.1 ∈ (ps.foldl (perTabInner oracle sp "pvp") acc).2.2) := by
  intro ps
  induction ps with
  | nil =>
    intro acc
    exact ⟨by simp, fun n hn => hn, fun jq hjq => absurd hjq (List.not_mem_nil _)⟩
  | cons jq t ih =>
    intro acc
    rw [List.foldl_cons]
    cases ho : oracle jq.1 "pvp" with
    | ok v =>
      rw [perTabInner_pvp_ok ho]
      obtain ⟨h1, h2, h3⟩ := ih (upsert acc.1 (labelOf jq.2) v, acc.2.1, acc.2.2)
      have hn : pvpMissOf oracle jq = none := by unfold pvpMissOf; rw [ho]
      refine ⟨?_, fun n hn' => h2 n hn', ?_⟩
      · rw [h1, List.filterMap_cons, hn]
      · intro x hx m hm
        rcases List.mem_cons.mp hx with rfl | hxt
        · rw [ho] at hm
          cases hm
        · exact h3 x hxt m hm
    | error m =>
      rw [perTabInner_pvp_err ho]
      obtain ⟨h1, h2, h3⟩ := ih
        (acc.1, acc.2.1 ++ [mkMissingEntry jq.2 m], addMissingIdx jq.1 acc.2.2)
      have hs : pvpMissOf oracle jq = some (mkMissingEntry jq.2 m) := by
        unfold pvpMissOf; rw [ho]
      refine ⟨?_, ?_, ?_⟩
      · rw [h1, List.filterMap_cons, hs, List.append_assoc, List.singleton_append]
      · intro n hn
        exact h2 n (mem_addMissingIdx_of_mem jq.1 hn)
      · intro x hx m' hm'
        rcases List.mem_cons.mp hx with rfl | hxt
        · exact h2 x.1 (mem_addMissingIdx_self x.1 acc.2.2)
        · exact h3 x hxt m' hm'

theorem perTabInner_nonpvp_snd (oracle : Nat → String → Except String StatLine)
    (sp : Bool) {k : String} (hk : k ≠ "pvp") :
    ∀ (ps : List (Nat × Profile))
      (acc : List (String × StatLine) × List MissingEntry × List Nat),
    (ps.foldl (perTabInner oracle sp k) acc).2 = acc.2 := by
  intro ps
  induction ps with
  | nil => intro acc; rfl
  | cons jq t ih =>
    intro acc
    rw [List.foldl_cons, ih (perTabInner oracle sp k acc jq)]
    unfold perTabInner
    by_cases hskip : (sp && acc.2.2.contains jq.1 && decide (k ≠ "pvp")) = true
    · rw [if_pos hskip]
    · rw [if_neg hskip]
      cases ho : oracle jq.1 k with
      | ok v => simp only [ho]
      | error m =>
        simp only [ho]
        rw [if_neg hk]

theorem perTabInner_stats_frame (oracle : Nat → String → Except String StatLine)
    {sp : Bool} (hsp : sp = true) {k : String} (hk : k ≠ "pvp")
    {i : Nat} {p : Profile} :
    ∀ (ps : List (Nat × Profile))
      (acc : List (String × StatLine) × List MissingEntry × List Nat),
    i ∈ acc.2.2 →
    (∀ jq ∈ ps, jq.1 ≠ i → labelOf jq.2 ≠ labelOf p) →
    getFirst ((ps.foldl (perTabInner oracle sp k) acc).1) (labelOf p) =
      getFirst acc.1 (labelOf p) := by
  intro ps
  induction ps with
  | nil => intro acc _ _; rfl
  | cons jq t ih =>
    intro acc hi hlab
    rw [List.foldl_cons]
    have hlab' : ∀ x ∈ t, x.1 ≠ i → labelOf x.2 ≠ labelOf p :=
      fun x hx => hlab x (List.mem_cons_of_mem _ hx)
    by_cases hji : jq.1 = i
    · have hskip : (sp && acc.2.2.contains jq.1 && decide (k ≠ "pvp")) = true := by
        rw [hsp, hji, contains_of_mem hi]
        simp [hk]
      have hstep : perTabInner oracle sp k acc jq = acc := by
        unfold perTabInner; rw [if_pos hskip]
      rw [hstep]
      exact ih acc hi hlab'
    · by_cases hskip : (sp && acc.2.2.contains jq.1 && decide (k ≠ "pvp")) = true
      · have hstep : perTabInner oracle sp k acc jq = acc := by
          unfold perTabInner; rw [if_pos hskip]
        rw [hstep]
        exact ih acc hi hlab'
      · cases ho : oracle jq.1 k with
        | ok v =>
          have hstep : perTabInner oracle sp k acc jq =
              (upsert acc.1 (labelOf jq.2) v, acc.2.1, acc.2.2) := by
            unfold perTabInner; rw [if_neg hskip, ho]
          rw [hstep,
            ih (upsert acc.1 (labelOf jq.2) v, acc.2.1, acc.2.2) hi hlab']
          rw [getFirst_upsert, if_neg (hlab jq (List.mem_cons_self _ _) hji)]
        | error m =>
          have hstep : perTabInner oracle sp k acc jq = acc := by
            unfold perTabInner
            rw [if_neg hskip]
            simp only [ho]
            rw [if_neg hk]
          rw [hstep]
          exact ih acc hi hlab'

theorem mem_upsert_eq {K V : Type} [DecidableEq K] {m : List (K × V)} {k : K}
    {v : V} {e : K × V} (h : e ∈ upsert m k v) : e ∈ m ∨ e = (k, v) := by
  induction m with
  | nil =>
    simp [upsert] at h
    right
    rw [h]
  | cons x rest ih =>
    obtain ⟨a, b⟩ := x
    by_cases ha : a = k
    · simp only [upsert, if_pos ha] at h
      rcases List.mem_cons.mp h with rfl | hmem
      · right
        rw [ha]
      · left
        exact List.mem_cons_of_mem _ hmem
    · simp only [upsert, if_neg ha] at h
      rcases List.mem_cons.mp h with rfl | hmem
      · left
        exact List.mem_cons_self _ _
      · rcases ih hmem with h1 | h2
        · left
          exact List.mem_cons_of_mem _ h1
        · right
          exact h2

/-- No non-pvp tab of `tabs` holds a stats entry under `p`'s label. -/
def tabFresh (p : Profile) (tabs : List (String × Tab)) : Prop :=
  ∀ e ∈ tabs, e.1 ≠ "pvp" → getFirst e.2.stats (labelOf p) = none

theorem ensureTabReady_missing
    (setup : String → (List (String × Nat) × List String)) (st : PassState)
    (k : String) :
    (ensureTabReady setup st k).missing = st.missing ∧
    (ensureTabReady setup st k).missingIdx = st.missingIdx := by
  unfold ensureTabReady
  by_cases hc : st.tabsDone.contains k = true
  · rw [if_pos hc]
    exact ⟨rfl, rfl⟩
  · rw [if_neg hc]
    exact ⟨rfl, rfl⟩

theorem ensureTabReady_tabFresh (p : Profile)
    (setup : String → (List (String × Nat) × List String)) (st : PassState)
    (k : String) (h : tabFresh p st.tabs) :
    tabFresh p (ensureTabReady setup st k).tabs := by
  unfold ensureTabReady
  by_cases hc : st.tabsDone.contains k = true
  · rw [if_pos hc]
    exact h
  · rw [if_neg hc]
    intro e he hne
    rcases mem_upsert_eq he with hm | rfl
    · exact h e hm hne
    · rfl

theorem perTabStep_eq (profiles : List Profile)
    (oracle : Nat → String → Except String StatLine)
    (setup : String → (List (String × Nat) × List String)) (sp : Bool)
    (st : PassState) (k : String) :
    perTabStep profiles oracle setup sp st k =
      { tabsDone := (ensureTabReady setup st k).tabsDone
        tabs := upsert (ensureTabReady setup st k).tabs k
          { metrics := (setup k).2
            stats := ((withIndices profiles).foldl (perTabInner oracle sp k)
              ([], (ensureTabReady setup st k).missing,
                (ensureTabReady setup st k).missingIdx)).1
            columnMap := (setup k).1 }
        missing := ((withIndices profiles).foldl (perTabInner oracle sp k)
          ([], (ensureTabReady setup st k).missing,
            (ensureTabReady setup st k).missingIdx)).2.1
        missingIdx := ((withIndices profiles).foldl (perTabInner oracle sp k)
          ([], (ensureTabReady setup st k).missing,
            (ensureTabReady setup st k).missingIdx)).2.2 } := rfl

theorem perTabStep_missing_nonpvp (profiles : List Profile)
    (oracle : Nat → String → Except String StatLine)
    (setup : String → (List (String × Nat) × List String)) (sp : Bool)
    {k : String} (hk : k ≠ "pvp") (st : PassState) :
    (perTabStep profiles oracle setup sp st k).missing = st.missing ∧
    (perTabStep profiles oracle setup sp st k).missingIdx = st.missingIdx := by
  obtain ⟨hm, hi⟩ := ensureTabReady_missing setup st k
  have hsnd := perTabInner_nonpvp_snd oracle sp hk (withIndices profiles)
    ([], (ensureTabReady setup st k).missing,
      (ensureTabReady setup st k).missingIdx)
  rw [perTabStep_eq]
  constructor
  · dsimp only
    rw [hsnd]
    exact hm
  · dsimp only
    rw [hsnd]
    exact hi

theorem perTabStep_tabFresh (profiles : List Profile)
    (oracle : Nat → String → Except String StatLine)
    (setup : String → (List (String × Nat) × List String))
    {p : Profile} {i : Nat} {k : String} (hk : k ≠ "pvp") (st : PassState)
    (hfresh : tabFresh p st.tabs) (hi : i ∈ st.missingIdx)
    (hlab : ∀ jq ∈ withIndices profiles, jq.1 ≠ i → labelOf jq.2 ≠ labelOf p) :
    tabFresh p (perTabStep profiles oracle setup true st k).tabs := by
  rw [perTabStep_eq]
  intro e he hne
  dsimp only at he
  rcases mem_upsert_eq he with hm | rfl
  · exact ensureTabReady_tabFresh p setup st k hfresh e hm hne
  · dsimp only
    obtain ⟨hm', hi'⟩ := ensureTabReady_missing setup st k
    have hframe := perTabInner_stats_frame oracle rfl hk (withIndices profiles)
      ([], (ensureTabReady setup st k).missing,
        (ensureTabReady setup st k).missingIdx)
      (by show i ∈ (ensureTabReady setup st k).missingIdx; rw [hi']; exact hi)
      hlab
    rw [hframe]
    rfl

theorem perTabStep_pvp_init (profiles : List Profile)
    (oracle : Nat → String → Except String StatLine)
    (setup : String → (List (String × Nat) × List String)) (sp : Bool)
    (p : Profile) :
    (perTabStep profiles oracle setup sp {} "pvp").missing =
        expectedMissing profiles oracle ∧
    (∀ jq ∈ withIndices profiles, ∀ m, oracle jq.1 "pvp" = .error m →
        jq.1 ∈ (perTabStep profiles oracle setup sp {} "pvp").missingIdx) ∧
    tabFresh p (perTabStep profiles oracle setup sp {} "pvp").tabs := by
  obtain ⟨h1, h2, h3⟩ := perTabInner_pvp_fold oracle sp (withIndices profiles)
    ([], [], [])
  rw [perTabStep_eq]
  have hacc : (([], (ensureTabReady setup {} "pvp").missing,
      (ensureTabReady setup {} "pvp").missingIdx) :
      List (String × StatLine) × List MissingEntry × List Nat) =
      ([], [], []) := rfl
  rw [hacc]
  refine ⟨?_, ?_, ?_⟩
  · dsimp only
    rw [h1]
    rfl
  · dsimp only
    exact h3
  · intro e he hne
    dsimp only at he
    rcases mem_upsert_eq he with hm | rfl
    · rcases mem_upsert_eq (show e ∈ upsert ([] : List (String × Tab)) "pvp"
          { metrics := (setup "pvp").2, stats := [],
            columnMap := (setup "pvp").1 } from hm) with h0 | rfl
      · cases h0
      · exact absurd rfl hne
    · exact absurd rfl hne

theorem perTab_rest_missing (profiles : List Profile)
    (oracle : Nat → String → Except String StatLine)
    (setup : String → (List (String × Nat) × List String)) (sp : Bool) :
    ∀ (rest : List String), (∀ k ∈ rest, k ≠ "pvp") → ∀ st : PassState,
    (rest.foldl (perTabStep profiles oracle setup sp) st).missing =
      st.missing := by
  intro rest
  induction rest with
  | nil => intro _ st; rfl
  | cons k t ih =>
    intro hks st
    rw [List.foldl_cons]
    have hk : k ≠ "pvp" := hks k (List.mem_cons_self _ _)
    obtain ⟨hm, _⟩ := perTabStep_missing_nonpvp profiles oracle setup sp hk st
    rw [ih (fun x hx => hks x (List.mem_cons_of_mem _ hx)) _, hm]

theorem perTab_rest_fresh (profiles : List Profile)
    (oracle : Nat → String → Except String StatLine)
    (setup : String → (List (String × Nat) × List String))
    {p : Profile} {i : Nat}
    (hlab : ∀ jq ∈ withIndices profiles, jq.1 ≠ i → labelOf jq.2 ≠ labelOf p) :
    ∀ (rest : List String), (∀ k ∈ rest, k ≠ "pvp") → ∀ st : PassState,
    i ∈ st.missingIdx → tabFresh p st.tabs →
    tabFresh p (rest.foldl (perTabStep profiles oracle setup true) st).tabs := by
  intro rest
  induction rest with
  | nil => intro _ st _ hf; exact hf
  | cons k t ih =>
    intro hks st hi hf
    rw [List.foldl_cons]
    have hk : k ≠ "pvp" := hks k (List.mem_cons_self _ _)
    obtain ⟨_, hidx⟩ := perTabStep_missing_nonpvp profiles oracle setup true hk st
    refine ih (fun x hx => hks x (List.mem_cons_of_mem _ hx)) _ ?_ ?_
    · rw [hidx]
      exact hi
    · exact perTabStep_tabFresh profiles oracle setup hk st hf hi hlab

theorem tabEntries_pvp {included : String → Bool}
    (hpv : included "pvp" = true) :
    tabEntries included =
      "pvp" :: (["pve", "resources", "farming", "building"].filter included) := by
  show List.filter included
    ("pvp" :: ["pve", "resources", "farming", "building"]) = _
  rw [List.filter_cons, hpv, if_pos rfl]

theorem tabEntries_rest_ne {included : String → Bool} :
    ∀ k ∈ ["pve", "resources", "farming", "building"].filter included,
      k ≠ "pvp" := by
  intro k hk
  have hmem := List.mem_of_mem_filter hk
  simp only [List.mem_cons, List.not_mem_nil, or_false] at hmem
  rcases hmem with rfl | rfl | rfl | rfl <;> decide

theorem perTabPass_eq {profiles : List Profile} {included : String → Bool}
    {oracle : Nat → String → Except String StatLine}
    {setup : String → (List (String × Nat) × List String)}
    (hpv : included "pvp" = true) :
    perTabPass profiles included oracle setup =
      (("pvp" :: (["pve", "resources", "farming", "building"].filter included)).foldl
        (perTabStep profiles oracle setup true) {}) := by
  have hsp : (tabEntries included).contains "pvp" = true := by
    rw [tabEntries_pvp hpv]
    simp
  show (tabEntries included).foldl
    (perTabStep profiles oracle setup ((tabEntries included).contains "pvp")) {} = _
  rw [hsp, tabEntries_pvp hpv]

theorem perTabPass_missing (profiles : List Profile) (included : String → Bool)
    (oracle : Nat → String → Except String StatLine)
    (setup : String → (List (String × Nat) × List String))
    (hpv : included "pvp" = true) :
    (perTabPass profiles included oracle setup).missing =
      expectedMissing profiles oracle := by
  rw [perTabPass_eq hpv, List.foldl_cons]
  rw [perTab_rest_missing profiles oracle setup true _ tabEntries_rest_ne _]
  exact (perTabStep_pvp_init profiles oracle setup true {}).1

theorem perTabPass_fresh (profiles : List Profile) (included : String → Bool)
    (oracle : Nat → String → Except String StatLine)
    (setup : String → (List (String × Nat) × List String))
    {p : Profile} {i : Nat} {msg : String}
    (hpv : included "pvp" = true)
    (hp : profiles[i]? = some p)
    (herr : oracle i "pvp" = .error msg)
    (hlab : ∀ jq ∈ withIndices profiles, jq.1 ≠ i → labelOf jq.2 ≠ labelOf p) :
    tabFresh p (perTabPass profiles included oracle setup).tabs := by
  rw [perTabPass_eq hpv, List.foldl_cons]
  obtain ⟨_, h2, h3⟩ := perTabStep_pvp_init profiles oracle setup true p
  refine perTab_rest_fresh profiles oracle setup hlab _ tabEntries_rest_ne _
    ?_ h3
  exact h2 (i, p) (mem_withIndices_of_getElem? hp) msg herr

theorem tabFresh_modify {p : Profile} {k l : String} {v : StatLine}
    (hcase : k = "pvp" ∨ l ≠ labelOf p) :
    ∀ m : List (String × Tab), tabFresh p m →
      tabFresh p (modifyTabStats m k l v) := by
  intro m
  induction m with
  | nil =>
    intro _ e he _
    have he' : e ∈ ([] : List (String × Tab)) := he
    cases he'
  | cons x rest ih =>
    obtain ⟨a, b⟩ := x
    intro hm e he hne
    have hrest : tabFresh p rest :=
      fun x hx => hm x (List.mem_cons_of_mem _ hx)
    have he' : e ∈ (if a = k
        then ((a, { b with stats := upsert b.stats l v }) :: rest)
        else ((a, b) :: modifyTabStats rest k l v)) := he
    by_cases hak : a = k
    · rw [if_pos hak] at he'
      rcases List.mem_cons.mp he' with rfl | hmem
      · rcases hcase with hkpvp | hlne
        · exact absurd (hak.trans hkpvp) hne
        · show getFirst (upsert b.stats l v) (labelOf p) = none
          rw [getFirst_upsert, if_neg hlne]
          exact hm (a, b) (List.mem_cons_self _ _) hne
      · exact hm e (List.mem_cons_of_mem _ hmem) hne
    · rw [if_neg hak] at he'
      rcases List.mem_cons.mp he' with rfl | hmem
      · exact hm (a, b) (List.mem_cons_self _ _) hne
      · exact ih hrest e hmem hne

theorem perPlayerStep_pvp_ok {oracle : Nat → String → Except String StatLine}
    {setup : String → (List (String × Nat) × List String)} {sp : Bool}
    {jq : Nat × Profile} {st : PassState} {v : StatLine}
    (ho : oracle jq.1 "pvp" = .ok v) :
    perPlayerStep oracle setup sp jq st "pvp" =
      { ensureTabReady setup st "pvp" with
        tabs := modifyTabStats (ensureTabReady setup st "pvp").tabs "pvp"
          (labelOf jq.2) v } := by
  unfold perPlayerStep
  rw [if_neg (by simp)]
  simp only [ho]

theorem perPlayerStep_pvp_err {oracle : Nat → String → Except String StatLine}
    {setup : String → (List (String × Nat) × List String)} {sp : Bool}
    {jq : Nat × Profile} {st : PassState} {m : String}
    (ho : oracle jq.1 "pvp" = .error m) :
    perPlayerStep oracle setup sp jq st "pvp" =
      { ensureTabReady setup st "pvp" with
        missingIdx :=
          addMissingIdx jq.1 (ensureTabReady setup st "pvp").missingIdx
        missing :=
          (ensureTabReady setup st "pvp").missing ++ [mkMissingEntry jq.2 m] } := by
  unfold perPlayerStep
  rw [if_neg (by simp)]
  simp only [ho]
  rw [if_pos trivial]

theorem perPlayerStep_skip {oracle : Nat → String → Except String StatLine}
    {setup : String → (List (String × Nat) × List String)} {sp : Bool}
    {jq : Nat × Profile} {st : PassState} {k : String}
    (hsp : sp = true) (hk : k ≠ "pvp") (hc : jq.1 ∈ st.missingIdx) :
    perPlayerStep oracle setup sp jq st k = st := by
  unfold perPlayerStep
  rw [if_pos (by rw [hsp, contains_of_mem hc]; simp [hk])]

theorem perPlayerStep_nonpvp_snd
    (oracle : Nat → String → Except String StatLine)
    (setup : String → (List (String × Nat) × List String)) (sp : Bool)
    (jq : Nat × Profile) (st : PassState) {k : String} (hk : k ≠ "pvp") :
    (perPlayerStep oracle setup sp jq st k).missing = st.missing ∧
    (perPlayerStep oracle setup sp jq st k).missingIdx = st.missingIdx := by
  unfold perPlayerStep
  obtain ⟨hm, hi⟩ := ensureTabReady_missing setup st k
  by_cases hskip : (sp && st.missingIdx.contains jq.1 && decide (k ≠ "pvp")) = true
  · rw [if_pos hskip]
    exact ⟨rfl, rfl⟩
  · rw [if_neg hskip]
    cases ho : oracle jq.1 k with
    | ok v =>
      simp only [ho]
      exact ⟨hm, hi⟩
    | error m =>
      simp only [ho]
      rw [if_neg hk]
      exact ⟨hm, hi⟩

theorem perPlayerStep_nonpvp_fresh
    {oracle : Nat → String → Except String StatLine}
    {setup : String → (List (String × Nat) × List String)} {sp : Bool}
    {jq : Nat × Profile} {st : PassState} {k : String} {p : Profile}
    (hk : k ≠ "pvp") (hlabel : labelOf jq.2 ≠ labelOf p)
    (hf : tabFresh p st.tabs) :
    tabFresh p (perPlayerStep oracle setup sp jq st k).tabs := by
  unfold perPlayerStep
  by_cases hskip : (sp && st.missingIdx.contains jq.1 && decide (k ≠ "pvp")) = true
  · rw [if_pos hskip]
    exact hf
  · rw [if_neg hskip]
    cases ho : oracle jq.1 k with
    | ok v =>
      simp only [ho]
      exact tabFresh_modify (Or.inr hlabel) (ensureTabReady setup st k).tabs
        (ensureTabReady_tabFresh p setup st k hf)
    | error m =>
      simp only [ho]
      rw [if_neg hk]
      exact ensureTabReady_tabFresh p setup st k hf

theorem perPlayer_rest_skip {oracle : Nat → String → Except String StatLine}
    {setup : String → (List (String × Nat) × List String)} {sp : Bool}
    {jq : Nat × Profile} (hsp : sp = true) :
    ∀ (rest : List String), (∀ k ∈ rest, k ≠ "pvp") → ∀ st : PassState,
    jq.1 ∈ st.missingIdx →
    rest.foldl (perPlayerStep oracle setup sp jq) st = st := by
  intro rest
  induction rest with
  | nil => intro _ st _; rfl
  | cons k t ih =>
    intro hks st hc
    rw [List.foldl_cons,
      perPlayerStep_skip hsp (hks k (List.mem_cons_self _ _)) hc]
    exact ih (fun x hx => hks x (List.mem_cons_of_mem _ hx)) st hc

theorem perPlayer_rest_snd {oracle : Nat → String → Except String StatLine}
    {setup : String → (List (String × Nat) × List String)} {sp : Bool}
    {jq : Nat × Profile} :
    ∀ (rest : List String), (∀ k ∈ rest, k ≠ "pvp") → ∀ st : PassState,
    (rest.foldl (perPlayerStep oracle setup sp jq) st).missing = st.missing ∧
    (rest.foldl (perPlayerStep oracle setup sp jq) st).missingIdx =
      st.missingIdx := by
  intro rest
  induction rest with
  | nil => intro _ st; exact ⟨rfl, rfl⟩
  | cons k t ih =>
    intro hks st
    rw [List.foldl_cons]
    obtain ⟨hm, hi⟩ :=
      perPlayerStep_nonpvp_snd oracle setup sp jq st
        (hks k (List.mem_cons_self _ _))
    obtain ⟨hm2, hi2⟩ := ih (fun x hx => hks x (List.mem_cons_of_mem _ hx))
      (perPlayerStep oracle setup sp jq st k)
    exact ⟨hm2.trans hm, hi2.trans hi⟩

theorem perPlayer_rest_fresh {oracle : Nat → String → Except String StatLine}
    {setup : String → (List (String × Nat) × List String)} {sp : Bool}
    {jq : Nat × Profile} {p : Profile} (hlabel : labelOf jq.2 ≠ labelOf p) :
    ∀ (rest : List String), (∀ k ∈ rest, k ≠ "pvp") → ∀ st : PassState,
    tabFresh p st.tabs →
    tabFresh p (rest.foldl (perPlayerStep oracle setup sp jq) st).tabs := by
  intro rest
  induction rest with
  | nil => intro _ st hf; exact hf
  | cons k t ih =>
    intro hks st hf
    rw [List.foldl_cons]
    exact ih (fun x hx => hks x (List.mem_cons_of_mem _ hx)) _
      (perPlayerStep_nonpvp_fresh (hks k (List.mem_cons_self _ _)) hlabel hf)

theorem perPlayer_turn_missing (oracle : Nat → String → Except String StatLine)
    (setup : String → (List (String × Nat) × List String)) {sp : Bool}
    (hsp : sp = true) {rest : List String} (hrest : ∀ k ∈ rest, k ≠ "pvp")
    (jq : Nat × Profile) (st : PassState) :
    (("pvp" :: rest).foldl (perPlayerStep oracle setup sp jq) st).missing =
      st.missing ++ (pvpMissOf oracle jq).toList := by
  rw [List.foldl_cons]
  cases ho : oracle jq.1 "pvp" with
  | ok v =>
    rw [perPlayerStep_pvp_ok ho]
    obtain ⟨hm, _⟩ := perPlayer_rest_snd rest hrest
      { ensureTabReady setup st "pvp" with
        tabs := modifyTabStats (ensureTabReady setup st "pvp").tabs "pvp"
          (labelOf jq.2) v }
    rw [hm]
    have hn : pvpMissOf oracle jq = none := by unfold pvpMissOf; rw [ho]
    rw [hn]
    show (ensureTabReady setup st "pvp").missing =
      st.missing ++ ([] : List MissingEntry)
    rw [List.append_nil]
    exact (ensureTabReady_missing setup st "pvp").1
  | error m =>
    rw [perPlayerStep_pvp_err ho]
    rw [perPlayer_rest_skip hsp rest hrest
      { ensureTabReady setup st "pvp" with
        missingIdx :=
          addMissingIdx jq.1 (ensureTabReady setup st "pvp").missingIdx
        missing :=
          (ensureTabReady setup st "pvp").missing ++ [mkMissingEntry jq.2 m] }
      (mem_addMissingIdx_self _ _)]
    have hs : pvpMissOf oracle jq = some (mkMissingEntry jq.2 m) := by
      unfold pvpMissOf; rw [ho]
    rw [hs]
    show (ensureTabReady setup st "pvp").missing ++ [mkMissingEntry jq.2 m] =
      st.missing ++ [mkMissingEntry jq.2 m]
    rw [(ensureTabReady_missing setup st "pvp").1]

theorem perPlayer_turn_fresh (oracle : Nat → String → Except String StatLine)
    (setup : String → (List (String × Nat) × List String)) {sp : Bool}
    (hsp : sp = true) {rest : List String} (hrest : ∀ k ∈ rest, k ≠ "pvp")
    {p : Profile} (jq : Nat × Profile) (st : PassState)
    (hokne : ∀ v, oracle jq.1 "pvp" = .ok v → labelOf jq.2 ≠ labelOf p)
    (hf : tabFresh p st.tabs) :
    tabFresh p
      (("pvp" :: rest).foldl (perPlayerStep oracle setup sp jq) st).tabs := by
  rw [List.foldl_cons]
  cases ho : oracle jq.1 "pvp" with
  | ok v =>
    rw [perPlayerStep_pvp_ok ho]
    apply perPlayer_rest_fresh (hokne v ho) rest hrest
    exact tabFresh_modify (Or.inl rfl) _
      (ensureTabReady_tabFresh p setup st "pvp" hf)
  | error m =>
    rw [perPlayerStep_pvp_err ho]
    rw [perPlayer_rest_skip hsp rest hrest
      { ensureTabReady setup st "pvp" with
        missingIdx :=
          addMissingIdx jq.1 (ensureTabReady setup st "pvp").missingIdx
        missing :=
          (ensureTabReady setup st "pvp").missing ++ [mkMissingEntry jq.2 m] }
      (mem_addMissingIdx_self _ _)]
    exact ensureTabReady_tabFresh p setup st "pvp" hf

theorem perPlayer_players_missing
    (oracle : Nat → String → Except String StatLine)
    (setup : String → (List (String × Nat) × List String)) {sp : Bool}
    (hsp : sp = true) {rest : List String} (hrest : ∀ k ∈ rest, k ≠ "pvp") :
    ∀ (ps : List (Nat × Profile)) (st : PassState),
    (ps.foldl (fun st ip =>
        ("pvp" :: rest).foldl (perPlayerStep oracle setup sp ip) st)
      st).missing = st.missing ++ ps.filterMap (pvpMissOf oracle) := by
  intro ps
  induction ps with
  | nil =>
    intro st
    show st.missing = st.missing ++ _
    rw [List.filterMap_nil, List.append_nil]
  | cons jq t ih =>
    intro st
    rw [List.foldl_cons, ih, perPlayer_turn_missing oracle setup hsp hrest jq st]
    rw [List.append_assoc, List.filterMap_cons]
    cases hmo : pvpMissOf oracle jq with
    | none => rfl
    | some e => rfl

theorem perPlayer_players_fresh
    (oracle : Nat → String → Except String StatLine)
    (setup : String → (List (String × Nat) × List String)) {sp : Bool}
    (hsp : sp = true) {rest : List String} (hrest : ∀ k ∈ rest, k ≠ "pvp")
    {p : Profile} :
    ∀ (ps : List (Nat × Profile)),
    (∀ jq ∈ ps, ∀ v, oracle jq.1 "pvp" = .ok v → labelOf jq.2 ≠ labelOf p) →
    ∀ st : PassState, tabFresh p st.tabs →
    tabFresh p ((ps.foldl (fun st ip =>
        ("pvp" :: rest).foldl (perPlayerStep oracle setup sp ip) st)
      st)).tabs := by
  intro ps
  induction ps with
  | nil => intro _ st hf; exact hf
  | cons jq t ih =>
    intro hok st hf
    rw [List.foldl_cons]
    exact ih (fun x hx => hok x (List.mem_cons_of_mem _ hx)) _
      (perPlayer_turn_fresh oracle setup hsp hrest jq st
        (hok jq (List.mem_cons_self _ _)) hf)

theorem perPlayerPass_eq {profiles : List Profile} {included : String → Bool}
    {oracle : Nat → String → Except String StatLine}
    {setup : String → (List (String × Nat) × List String)}
    (hpv : included "pvp" = true) :
    perPlayerPass profiles included oracle setup =
      (withIndices profiles).foldl
        (fun st ip =>
          ("pvp" :: (["pve", "resources", "farming", "building"].filter
            included)).foldl (perPlayerStep oracle setup true ip) st)
        {} := by
  have hc : ∀ rest' : List String, (("pvp" :: rest').contains "pvp") = true := by
    intro rest'
    simp
  show (withIndices profiles).foldl
    (fun st ip => (tabEntries included).foldl
      (perPlayerStep oracle setup ((tabEntries included).contains "pvp") ip) st)
    {} = _
  simp only [tabEntries_pvp hpv, hc]

theorem perPlayerPass_missing (profiles : List Profile)
    (included : String → Bool)
    (oracle : Nat → String → Except String StatLine)
    (setup : String → (List (String × Nat) × List String))
    (hpv : included "pvp" = true) :
    (perPlayerPass profiles included oracle setup).missing =
      expectedMissing profiles oracle := by
  rw [perPlayerPass_eq hpv,
    perPlayer_players_missing oracle setup rfl tabEntries_rest_ne
      (withIndices profiles) {}]
  rfl

theorem perPlayerPass_fresh (profiles : List Profile)
    (included : String → Bool)
    (oracle : Nat → String → Except String StatLine)
    (setup : String → (List (String × Nat) × List String))
    {p : Profile} {i : Nat} {msg : String}
    (hpv : included "pvp" = true)
    (herr : oracle i "pvp" = .error msg)
    (hlab : ∀ jq ∈ withIndices profiles, jq.1 ≠ i → labelOf jq.2 ≠ labelOf p) :
    tabFresh p (perPlayerPass profiles included oracle setup).tabs := by
  rw [perPlayerPass_eq hpv]
  refine perPlayer_players_fresh oracle setup rfl tabEntries_rest_ne
    (withIndices profiles) ?_ {} ?_
  · intro jq hjq v hov
    by_cases hji : jq.1 = i
    · rw [hji, herr] at hov
      exact Except.noConfusion hov
    · exact hlab jq hjq hji
  · intro e he _
    have he' : e ∈ ([] : List (String × Tab)) := he
    cases he'

/-- C6.  For every scrape pass whose tab selection includes pvp, under either
traversal strategy (perPlayer or perTab): a player whose pvp row lookup
fails is recorded exactly once in the pass's missing list — the only entry
carrying that player's label, and it holds the label, steamId, steamUrl and
a reason (the error message, or "Missing player stats" when the message is
empty) — and no tab of the pass other than pvp holds a stats entry under
that player's label; and the skip is scoped to the pass: a pass run with an
oracle for which that player's lookups succeed records no missing entry
with that player's label under either strategy.  Hypotheses: the player is
on the roster at index `i`, and no other roster slot shares the player's
stats label (JS `displayName || fallbackName`). -/
theorem scrape_pass_missing_skip
    (profiles : List Profile) (included : String → Bool)
    (oracle : Nat → String → Except String StatLine)
    (setup : String → (List (String × Nat) × List String))
    (i : Nat) (p : Profile) (msg : String)
    (hpv : included "pvp" = true)
    (hp : profiles[i]? = some p)
    (herr : oracle i "pvp" = .error msg)
    (hlab : ∀ jq ∈ withIndices profiles, jq.1 ≠ i →
      labelOf jq.2 ≠ labelOf p) :
    ((perPlayerPass profiles included oracle setup).missing.filter
        (labelMatches p) = [mkMissingEntry p msg] ∧
      ∀ k td, k ≠ "pvp" →
        (k, td) ∈ (perPlayerPass profiles included oracle setup).tabs →
        getFirst td.stats (labelOf p) = none) ∧
    ((perTabPass profiles included oracle setup).missing.filter
        (labelMatches p) = [mkMissingEntry p msg] ∧
      ∀ k td, k ≠ "pvp" →
        (k, td) ∈ (perTabPass profiles included oracle setup).tabs →
        getFirst td.stats (labelOf p) = none) ∧
    (∀ oracle2 : Nat → String → Except String StatLine,
      (∀ k, ∃ v, oracle2 i k = .ok v) →
      (perPlayerPass profiles included oracle2 setup).missing.filter
        (labelMatches p) = [] ∧
      (perTabPass profiles included oracle2 setup).missing.filter
        (labelMatches p) = []) := by
  have hlen : i < profiles.length := by
    rcases List.getElem?_eq_some.mp hp with ⟨h1, _⟩
    exact h1
  have hcount :
      (withIndices profiles).countP (fun jq => decide (jq.1 = i)) = 1 := by
    show (withIndicesFrom 0 profiles).countP (fun jq => decide (jq.1 = i)) = 1
    rw [withIndicesFrom_countP, if_pos ⟨Nat.zero_le _, by omega⟩]
  have hval : ∀ jq ∈ withIndices profiles, jq.1 = i → jq.2 = p := by
    intro jq hjq hji
    have hjq' : jq ∈ withIndicesFrom 0 profiles := hjq
    obtain ⟨_, h2⟩ := withIndicesFrom_getElem? hjq'
    rw [Nat.sub_zero, hji] at h2
    exact Option.some.inj (h2.symm.trans hp)
  refine ⟨⟨?_, ?_⟩, ⟨?_, ?_⟩, ?_⟩
  · rw [perPlayerPass_missing profiles included oracle setup hpv]
    exact filter_pvpMiss_single oracle i p msg herr (withIndices profiles)
      hcount hval hlab
  · intro k td hk hmem
    exact perPlayerPass_fresh profiles included oracle setup hpv herr hlab
      (k, td) hmem hk
  · rw [perTabPass_missing profiles included oracle setup hpv]
    exact filter_pvpMiss_single oracle i p msg herr (withIndices profiles)
      hcount hval hlab
  · intro k td hk hmem
    exact perTabPass_fresh profiles included oracle setup hpv hp herr hlab
      (k, td) hmem hk
  · intro oracle2 hall
    obtain ⟨v, hv⟩ := hall "pvp"
    have hok : ∀ jq ∈ withIndices profiles, jq.1 = i →
        pvpMissOf oracle2 jq = none := by
      intro jq _ hji
      unfold pvpMissOf
      rw [hji, hv]
    constructor
    · rw [perPlayerPass_missing profiles included oracle2 setup hpv]
      exact filter_pvpMiss_nil oracle2 i p (withIndices profiles) hlab hok
    · rw [perTabPass_missing profiles included oracle2 setup hpv]
      exact filter_pvpMiss_nil oracle2 i p (withIndices profiles) hlab hok

/-- Witness for C6 at a concrete two-player roster: the second player's pvp
row lookup fails, yielding exactly one missing entry under their label, no
non-pvp stats entry for them under either strategy, and no missing entry at
all when a second pass's lookups succeed. -/
theorem scrape_pass_missing_skip_witness :
    let alice : Profile := { displayName := some "Alice" }
    let bob : Profile := { displayName := some "Bob",
                           steamId := some "765611", steamUrl := some "u" }
    let roster : List Profile := [alice, bob]
    let inc : String → Bool := fun _ => true
    let orc : Nat → String → Except String StatLine := fun j k =>
      if j = 1 && decide (k = "pvp") then Except.error "Row not found"
      else Except.ok [("Kills", some 3)]
    let stp : String → (List (String × Nat) × List String) :=
      fun _ => ([("Kills", 0)], ["Kills"])
    ((perPlayerPass roster inc orc stp).missing.filter (labelMatches bob) =
        [mkMissingEntry bob "Row not found"] ∧
      ∀ k td, k ≠ "pvp" →
        (k, td) ∈ (perPlayerPass roster inc orc stp).tabs →
        getFirst td.stats (labelOf bob) = none) ∧
    ((perTabPass roster inc orc stp).missing.filter (labelMatches bob) =
        [mkMissingEntry bob "Row not found"] ∧
      ∀ k td, k ≠ "pvp" →
        (k, td) ∈ (perTabPass roster inc orc stp).tabs →
        getFirst td.stats (labelOf bob) = none) ∧
    (∀ oracle2 : Nat → String → Except String StatLine,
      (∀ k, ∃ v, oracle2 1 k = .ok v) →
      (perPlayerPass roster inc oracle2 stp).missing.filter
        (labelMatches bob) = [] ∧
      (perTabPass roster inc oracle2 stp).missing.filter
        (labelMatches bob) = []) := by
  intro alice bob roster inc orc stp
  exact scrape_pass_missing_skip roster inc orc stp 1 bob "Row not found"
    rfl rfl rfl (by decide)

end MooseStats
